import Mathlib

/-!
Verification of the dynamic causal graph system (dyn_causal).

This file gives a shallow embedding of the core data structures and
operations of the repository — the decaying causal graph (graph.py), the
candidate gating (gating.py), the consensus debate wrapper (llm.py), the
orchestrator's pair-evaluation loop and budget limiter (orchestrator.py),
signal aggregation and alerting (inference.py, alerts.py), and the log
replay tool (rebuild_from_log.py) — and proves or refutes the frozen
claims about them.

Modelling conventions:
* Python dicts that are used as keyed stores become association lists
  (`List (κ × ν)`) with `alookup` / `aupsert` / `aerase`, whose pointwise
  lookup behaviour matches dict indexing, assignment and deletion.
* Timestamps (datetime / isoformat strings) become rationals on a single
  timeline; float arithmetic is idealised as exact rational arithmetic,
  except for the real-exponentiation decay factor and the logistic, which
  live in `ℝ`.
* Evidence payloads are opaque to all of the graph logic, so the graph is
  parametrised by the evidence type `ε`.
-/

set_option maxHeartbeats 1000000

namespace DynCausal

/-! ### Association-list primitives (model of Python dict operations) -/

/-- Lookup of a key: the first binding wins, like a Python dict (which has
unique keys; the operations below preserve first-position semantics). -/
def alookup {κ ν : Type} [DecidableEq κ] (k : κ) : List (κ × ν) → Option ν
  | [] => none
  | (a, b) :: t => if a = k then some b else alookup k t

/-- Model of `d[k] = v`: replace the first binding of `k` in place, or append
a new binding when `k` is absent. -/
def aupsert {κ ν : Type} [DecidableEq κ] (k : κ) (v : ν) : List (κ × ν) → List (κ × ν)
  | [] => [(k, v)]
  | (a, b) :: t => if a = k then (k, v) :: t else (a, b) :: aupsert k v t

/-- Model of `del d[k]` / `d.pop(k, None)`: drop every binding of `k`. -/
def aerase {κ ν : Type} [DecidableEq κ] (k : κ) : List (κ × ν) → List (κ × ν)
  | [] => []
  | (a, b) :: t => if a = k then aerase k t else (a, b) :: aerase k t

/-- Keys of an association list, in order. -/
def akeys {κ ν : Type} : List (κ × ν) → List κ
  | [] => []
  | (a, _) :: t => a :: akeys t

theorem alookup_nil {κ ν : Type} [DecidableEq κ] (k : κ) :
    alookup (ν := ν) k [] = none := rfl

theorem alookup_aupsert {κ ν : Type} [DecidableEq κ] (k j : κ) (v : ν)
    (l : List (κ × ν)) :
    alookup j (aupsert k v l) = if k = j then some v else alookup j l := by
  induction l with
  | nil =>
    by_cases hkj : k = j <;> simp [aupsert, alookup, hkj]
  | cons hd t ih =>
    obtain ⟨a, b⟩ := hd
    by_cases hak : a = k
    · subst hak
      by_cases haj : a = j <;> simp [aupsert, alookup, haj]
    · by_cases haj : a = j
      · subst haj
        have hka : ¬ k = a := fun h => hak h.symm
        simp [aupsert, alookup, hak, hka]
      · simp [aupsert, alookup, hak, haj, ih]

theorem alookup_aerase {κ ν : Type} [DecidableEq κ] (k j : κ) (l : List (κ × ν)) :
    alookup j (aerase k l) = if k = j then none else alookup j l := by
  induction l with
  | nil => simp [aerase, alookup]
  | cons hd t ih =>
    obtain ⟨a, b⟩ := hd
    by_cases hak : a = k
    · subst hak
      by_cases haj : a = j
      · subst haj
        simp [aerase, alookup, ih]
      · simp [aerase, alookup, haj, ih]
    · by_cases haj : a = j
      · subst haj
        have hka : ¬ k = a := fun h => hak h.symm
        simp [aerase, alookup, hak, hka]
      · simp [aerase, alookup, hak, haj, ih]

theorem alookup_append {κ ν : Type} [DecidableEq κ] (k : κ) (l l' : List (κ × ν)) :
    alookup k (l ++ l')
      = match alookup k l with
        | some v => some v
        | none => alookup k l' := by
  induction l with
  | nil => simp [alookup]
  | cons hd t ih =>
    obtain ⟨a, b⟩ := hd
    by_cases h : a = k <;> simp [alookup, h, ih]

theorem mem_akeys_aupsert {κ ν : Type} [DecidableEq κ] (k x : κ) (v : ν)
    (l : List (κ × ν)) (hx : x ∈ akeys (aupsert k v l)) : x = k ∨ x ∈ akeys l := by
  induction l with
  | nil => simpa [aupsert, akeys] using hx
  | cons hd t ih =>
    obtain ⟨a, b⟩ := hd
    by_cases h : a = k
    · subst h
      rcases (by simpa [aupsert, akeys] using hx : x = a ∨ x ∈ akeys t) with h1 | h1
      · exact Or.inl h1
      · exact Or.inr (by simp [akeys, h1])
    · rcases (by simpa [aupsert, akeys, h] using hx : x = a ∨ x ∈ akeys (aupsert k v t)) with h1 | h1
      · exact Or.inr (by simp [akeys, h1])
      · rcases ih h1 with h2 | h2
        · exact Or.inl h2
        · exact Or.inr (by simp [akeys, h2])

theorem akeys_append {κ ν : Type} (l l' : List (κ × ν)) :
    akeys (l ++ l') = akeys l ++ akeys l' := by
  induction l with
  | nil => simp [akeys]
  | cons hd t ih => obtain ⟨a, b⟩ := hd; simp [akeys, ih]

theorem exists_alookup_of_mem_akeys {κ ν : Type} [DecidableEq κ] (x : κ)
    (l : List (κ × ν)) (hx : x ∈ akeys l) : ∃ v, alookup x l = some v := by
  induction l with
  | nil => simp [akeys] at hx
  | cons hd t ih =>
    obtain ⟨a, b⟩ := hd
    rcases (by simpa [akeys] using hx : x = a ∨ x ∈ akeys t) with h1 | h1
    · exact ⟨b, by simp [alookup, h1.symm]⟩
    · by_cases hq : a = x
      · exact ⟨b, by simp [alookup, hq]⟩
      · obtain ⟨v, hv⟩ := ih h1
        exact ⟨v, by simp [alookup, hq, hv]⟩

theorem akeys_nodup_aupsert {κ ν : Type} [DecidableEq κ] (k : κ) (v : ν)
    (l : List (κ × ν)) (h : (akeys l).Nodup) : (akeys (aupsert k v l)).Nodup := by
  induction l with
  | nil => simp [aupsert, akeys]
  | cons hd t ih =>
    obtain ⟨a, b⟩ := hd
    rw [show akeys ((a, b) :: t) = a :: akeys t from rfl, List.nodup_cons] at h
    obtain ⟨ha, ht⟩ := h
    by_cases hak : a = k
    · subst hak
      simpa [aupsert, akeys, List.nodup_cons] using ⟨ha, ht⟩
    · have hnot : a ∉ akeys (aupsert k v t) := by
        intro hmem
        rcases mem_akeys_aupsert k a v t hmem with h1 | h1
        · exact hak h1
        · exact ha h1
      simpa [aupsert, akeys, hak, List.nodup_cons] using ⟨hnot, ih ht⟩

/-! ### Events (src/dyn_causal/events.py) -/

/-- An `Event` (events.py): id, type string, optional ticker, UTC timestamp
(modelled as a rational on a single timeline, in seconds), open attribute
map, optional summary. -/
structure Event where
  id : String
  type : String
  ticker : Option String
  ts : ℚ
  attrs : List (String × String)
  summary : Option String
deriving DecidableEq, Repr

/-- The node payload `Event.to_node` produces: every field, with the summary
defaulted to the empty string (`self.summary or ""`). -/
structure NodeData where
  id : String
  type : String
  ticker : Option String
  ts : ℚ
  attrs : List (String × String)
  summary : String
deriving DecidableEq, Repr

def Event.to_node (e : Event) : NodeData :=
  { id := e.id, type := e.type, ticker := e.ticker, ts := e.ts,
    attrs := e.attrs,
    summary := match e.summary with
               | some s => if s = "" then "" else s
               | none => "" }

/-! ### The dynamic causal graph (src/dyn_causal/graph.py) -/

/-- Edge attributes (graph.py `EdgeData` / the networkx edge dict): weight,
polarity, last-updated timestamp, evidence list. Weights are idealised as
exact rationals; `ε` is the opaque evidence payload type. -/
structure EdgeData (ε : Type) where
  weight : ℚ
  polarity : ℤ
  last_updated : ℚ
  evidence : List ε
deriving DecidableEq

/-- The graph state: node attribute dicts keyed by node id, edge attribute
dicts keyed by the ordered (src, dst) pair, as in a networkx `DiGraph`.
A node value of `none` models a node networkx created implicitly (with an
empty attribute dict) because `add_edge` referenced it before any
`add_event_node`. -/
structure DynamicCausalGraph (ε : Type) where
  nodes : List (String × Option NodeData)
  edges : List ((String × String) × EdgeData ε)
deriving DecidableEq

def emptyGraph (ε : Type) : DynamicCausalGraph ε := ⟨[], []⟩

/-- Model of `DynamicCausalGraph.add_event_node`: if the node exists its
attribute dict is `update`d with `ev.to_node()` (a merge that replaces every
key, since `to_node` always carries the full fixed key set — so it equals
replacement, also when the previous value was an implicit empty dict); else
the node is added. Both cases are `aupsert`. -/
def add_event_node {ε : Type} (g : DynamicCausalGraph ε) (ev : Event) :
    DynamicCausalGraph ε :=
  { g with nodes := aupsert ev.id (some ev.to_node) g.nodes }

/-- networkx `add_edge` creates missing endpoint nodes with an empty
attribute dict: here, a `none` entry. -/
def ensure_node (i : String) (ns : List (String × Option NodeData)) :
    List (String × Option NodeData) :=
  match alookup i ns with
  | some _ => ns
  | none => ns ++ [(i, none)]

/-- Model of `DynamicCausalGraph.add_or_update_edge`: when the edge exists,
weight becomes `0.5*old + 0.5*new`, polarity is replaced, `last_updated`
refreshed to `now`, and the evidence is appended; otherwise the edge is
created with the given data (and missing endpoint nodes are created
implicitly by networkx, src first). `now` stands for `utcnow().isoformat()`. -/
def add_or_update_edge {ε : Type} (g : DynamicCausalGraph ε) (src dst : String)
    (weight : ℚ) (polarity : ℤ) (evidence : ε) (now : ℚ) : DynamicCausalGraph ε :=
  match alookup (src, dst) g.edges with
  | some data =>
      let d : EdgeData ε :=
        { weight := (1/2) * data.weight + (1/2) * weight,
          polarity := polarity, last_updated := now,
          evidence := data.evidence ++ [evidence] }
      { g with edges := aupsert (src, dst) d g.edges }
  | none =>
      { nodes := ensure_node dst (ensure_node src g.nodes),
        edges := g.edges ++ [((src, dst),
          { weight := weight, polarity := polarity, last_updated := now,
            evidence := [evidence] })] }

/-- Model of `DynamicCausalGraph.remove_node`: a no-op when the node is
absent; otherwise the node is removed and, as networkx does, every edge
incident to it is removed as well. -/
def remove_node {ε : Type} (g : DynamicCausalGraph ε) (node_id : String) :
    DynamicCausalGraph ε :=
  if (alookup node_id g.nodes).isSome then
    { nodes := aerase node_id g.nodes,
      edges := g.edges.filter
        (fun e => decide (e.1.1 ≠ node_id) && decide (e.1.2 ≠ node_id)) }
  else g

theorem alookup_eq_none_of_not_mem_akeys {κ ν : Type} [DecidableEq κ] (x : κ)
    (l : List (κ × ν)) (hx : x ∉ akeys l) : alookup x l = none := by
  induction l with
  | nil => rfl
  | cons hd t ih =>
    obtain ⟨a, b⟩ := hd
    have h1 : ¬ x = a := fun h => hx (by simp [akeys, h])
    have h2 : x ∉ akeys t := fun h => hx (by simp [akeys, h])
    have h3 : ¬ a = x := fun h => h1 h.symm
    simp [alookup, h3, ih h2]

/-- Lookup in a key-preserving map followed by a filter, over an
association list with no duplicate keys. -/
theorem alookup_map_filter {κ ν ν' : Type} [DecidableEq κ]
    (F : κ → ν → ν') (p : κ → ν' → Bool) (l : List (κ × ν)) (k : κ)
    (hnd : (akeys l).Nodup) :
    alookup k ((l.map (fun e => (e.1, F e.1 e.2))).filter (fun e => p e.1 e.2))
      = match alookup k l with
        | none => none
        | some v => if p k (F k v) then some (F k v) else none := by
  induction l with
  | nil => simp [alookup]
  | cons hd t ih =>
    obtain ⟨a, b⟩ := hd
    rw [show akeys ((a, b) :: t) = a :: akeys t from rfl, List.nodup_cons] at hnd
    obtain ⟨ha, ht⟩ := hnd
    by_cases hak : a = k
    · subst hak
      have htn : alookup a t = none := alookup_eq_none_of_not_mem_akeys a t ha
      by_cases hp : p a (F a b) = true
      · simp [alookup, hp]
      · have hp' : p a (F a b) = false := by
          cases hq : p a (F a b) with
          | true => exact absurd hq hp
          | false => rfl
        simp [alookup, hp', ih ht, htn]
    · by_cases hp : p a (F a b) = true
      · simp [alookup, hak, hp, ih ht]
      · have hp' : p a (F a b) = false := by
          cases hq : p a (F a b) with
          | true => exact absurd hq hp
          | false => rfl
        simp [alookup, hak, hp', ih ht]

/-- C5: upserting an existing edge (src,dst) with new weight wn leaves it
with weight exactly 0.5·wo + 0.5·wn, the new polarity, the evidence list
with the new record appended, and the refreshed timestamp; upserting an
absent edge creates it with weight wn, the given polarity and the
one-element evidence list; and the at-most-one-edge-per-ordered-pair
invariant (no duplicate (src,dst) keys) is preserved in both cases. -/
theorem C5_add_or_update_edge (ε : Type) (g : DynamicCausalGraph ε)
    (src dst : String) (wn : ℚ) (p : ℤ) (ev : ε) (now : ℚ) :
    (∀ e : EdgeData ε, alookup (src, dst) g.edges = some e →
      alookup (src, dst) (add_or_update_edge g src dst wn p ev now).edges
        = some { weight := (1/2) * e.weight + (1/2) * wn, polarity := p,
                 last_updated := now, evidence := e.evidence ++ [ev] })
    ∧ (alookup (src, dst) g.edges = none →
      alookup (src, dst) (add_or_update_edge g src dst wn p ev now).edges
        = some { weight := wn, polarity := p, last_updated := now,
                 evidence := [ev] })
    ∧ ((akeys g.edges).Nodup →
      (akeys (add_or_update_edge g src dst wn p ev now).edges).Nodup) := by
  refine ⟨?_, ?_, ?_⟩
  · intro e he
    simp [add_or_update_edge, he, alookup_aupsert]
  · intro he
    simp [add_or_update_edge, he, alookup_append, alookup]
  · intro hnd
    cases hcase : alookup (src, dst) g.edges with
    | some e =>
      simpa [add_or_update_edge, hcase] using
        akeys_nodup_aupsert (src, dst) _ g.edges hnd
    | none =>
      simp only [add_or_update_edge, hcase]
      have hnotin : (src, dst) ∉ akeys g.edges := by
        intro hmem
        obtain ⟨v, hv⟩ := exists_alookup_of_mem_akeys (src, dst) g.edges hmem
        rw [hcase] at hv
        exact Option.noConfusion hv
      rw [akeys_append]
      simpa [akeys, List.nodup_append] using ⟨hnd, hnotin⟩

/-! ### Decay (graph.py `DynamicCausalGraph.decay`)

The decay factor `0.5 ** (days/hl)` is a real exponentiation, so this part
of the model lives in `ℝ` and is necessarily noncomputable; everything the
factor multiplies stays exact. -/

/-- Model of `self.half_lives.get(t, 3.0)`: the per-kind half-life with the
default 3.0 days for unknown kinds. -/
def half_life_for (half_lives : List (String × ℚ)) (t : String) : ℚ :=
  (alookup t half_lives).getD 3

/-- Elapsed days `max((now - last).total_seconds()/86400.0, 0.0)`
(timestamps are in seconds). -/
def edge_days (now last : ℚ) : ℚ :=
  max ((now - last) / 86400) 0

/-- The effective half-life of an edge:
`min(half_lives.get(src_type, 3.0), half_lives.get(dst_type, 3.0))`. -/
def edge_half_life (half_lives : List (String × ℚ)) (src_t dst_t : String) : ℚ :=
  min (half_life_for half_lives src_t) (half_life_for half_lives dst_t)

/-- The decay factor: `0.0 if hl <= 0 else 0.5 ** (days/hl)`. -/
noncomputable def decay_factor (hl days : ℚ) : ℝ :=
  if hl ≤ 0 then 0 else ((1 : ℝ) / 2) ^ ((days / hl : ℚ) : ℝ)

/-- The post-decay weight of one edge: `weight * factor`. -/
noncomputable def decayed_weight (w : ℚ) (hl days : ℚ) : ℝ :=
  (w : ℝ) * decay_factor hl days

/-- The `"type"` attribute of a stored node (`self.G.nodes[i]["type"]`);
`none` when the node is absent, or is an implicit networkx node with an
empty attribute dict — cases where Python would raise `KeyError`. -/
def node_type {ε : Type} (g : DynamicCausalGraph ε) (i : String) : Option String :=
  (alookup i g.nodes).bind (fun o => o.map NodeData.type)

/-- Post-decay edge attributes: the weight has become a real number. -/
structure EdgeDataR (ε : Type) where
  weight : ℝ
  polarity : ℤ
  last_updated : ℚ
  evidence : List ε

/-- Model of `DynamicCausalGraph.decay`: every edge's weight is multiplied
by the decay factor, its `last_updated` is reset to `now`, and edges whose
resulting weight is `< 0.05` are removed. The `"type"` lookup is defaulted
to `""` where Python would raise `KeyError` (an edge endpoint never
upserted as a node); the C6 theorem carries the hypothesis that both
endpoint types resolve, so the default is never exercised there. -/
noncomputable def decay_edges {ε : Type} (half_lives : List (String × ℚ))
    (g : DynamicCausalGraph ε) (now : ℚ) :
    List ((String × String) × EdgeDataR ε) :=
  (g.edges.map (fun e =>
    (e.1, ({ weight := decayed_weight e.2.weight
               (edge_half_life half_lives ((node_type g e.1.1).getD "")
                 ((node_type g e.1.2).getD ""))
               (edge_days now e.2.last_updated),
             polarity := e.2.polarity, last_updated := now,
             evidence := e.2.evidence } : EdgeDataR ε)))).filter
    (fun e => decide (¬ e.2.weight < (0.05 : ℝ)))

/-- C6: for every edge of a well-formed graph (no duplicate edge keys,
endpoint types resolving, nonnegative weight): decay multiplies the weight
by `0.5 ^ (days / hl)` where `hl = min(half_life(src type), half_life(dst
type))` — with the lookup defaulting to 3.0 for unknown kinds — or by 0
when `hl ≤ 0`; the post-decay weight never exceeds the pre-decay weight;
`last_updated` is reset to `now` on the surviving edge; and the edge is
kept in the decayed edge set exactly when its post-decay weight is not
below 0.05, so an edge decayed under 0.05 is absent from the next
snapshot. -/
theorem C6_decay (ε : Type) (g : DynamicCausalGraph ε)
    (half_lives : List (String × ℚ)) (now : ℚ) (src dst : String)
    (e : EdgeData ε) (st dt : String)
    (hnd : (akeys g.edges).Nodup)
    (he : alookup (src, dst) g.edges = some e)
    (hst : node_type g src = some st)
    (hdt : node_type g dst = some dt)
    (hw : 0 ≤ e.weight) :
    (∀ t, alookup t half_lives = none → half_life_for half_lives t = 3)
    ∧ (alookup (src, dst) (decay_edges half_lives g now)
        = if decayed_weight e.weight (edge_half_life half_lives st dt)
              (edge_days now e.last_updated) < (0.05 : ℝ)
          then none
          else some { weight := decayed_weight e.weight
                        (edge_half_life half_lives st dt)
                        (edge_days now e.last_updated),
                      polarity := e.polarity, last_updated := now,
                      evidence := e.evidence })
    ∧ (edge_half_life half_lives st dt ≤ 0 →
        decayed_weight e.weight (edge_half_life half_lives st dt)
          (edge_days now e.last_updated) = 0)
    ∧ (0 < edge_half_life half_lives st dt →
        decayed_weight e.weight (edge_half_life half_lives st dt)
          (edge_days now e.last_updated)
          = (e.weight : ℝ) * ((1 : ℝ) / 2)
              ^ (((edge_days now e.last_updated
                    / edge_half_life half_lives st dt : ℚ) : ℝ)))
    ∧ decayed_weight e.weight (edge_half_life half_lives st dt)
        (edge_days now e.last_updated) ≤ (e.weight : ℝ) := by
  have hdays : (0 : ℚ) ≤ edge_days now e.last_updated := le_max_right _ _
  refine ⟨?_, ?_, ?_, ?_, ?_⟩
  · intro t ht
    simp [half_life_for, ht]
  · have h := alookup_map_filter
      (fun (k : String × String) (v : EdgeData ε) =>
        ({ weight := decayed_weight v.weight
             (edge_half_life half_lives ((node_type g k.1).getD "")
               ((node_type g k.2).getD ""))
             (edge_days now v.last_updated),
           polarity := v.polarity, last_updated := now,
           evidence := v.evidence } : EdgeDataR ε))
      (fun _ v => decide (¬ v.weight < (0.05 : ℝ)))
      g.edges (src, dst) hnd
    rw [he] at h
    have h2 : alookup (src, dst) (decay_edges half_lives g now)
        = if decide (¬ decayed_weight e.weight
              (edge_half_life half_lives ((node_type g src).getD "")
                ((node_type g dst).getD ""))
              (edge_days now e.last_updated) < (0.05 : ℝ)) = true
          then some ({ weight := decayed_weight e.weight
                         (edge_half_life half_lives ((node_type g src).getD "")
                           ((node_type g dst).getD ""))
                         (edge_days now e.last_updated),
                       polarity := e.polarity, last_updated := now,
                       evidence := e.evidence } : EdgeDataR ε)
          else none := h
    rw [hst, hdt] at h2
    simp only [Option.getD_some] at h2
    rw [h2]
    by_cases h5 : decayed_weight e.weight (edge_half_life half_lives st dt)
        (edge_days now e.last_updated) < (0.05 : ℝ)
    · simp [h5]
    · simp [h5]
  · intro h
    simp [decayed_weight, decay_factor, h]
  · intro h
    have h' : ¬ edge_half_life half_lives st dt ≤ 0 := not_le.mpr h
    simp [decayed_weight, decay_factor, h']
  · by_cases h : edge_half_life half_lives st dt ≤ 0
    · have hz : decayed_weight e.weight (edge_half_life half_lives st dt)
          (edge_days now e.last_updated) = 0 := by
        simp [decayed_weight, decay_factor, h]
      rw [hz]
      exact_mod_cast hw
    · have hpos : 0 < edge_half_life half_lives st dt := lt_of_not_le h
      have hexp : (0 : ℝ) ≤ ((edge_days now e.last_updated
          / edge_half_life half_lives st dt : ℚ) : ℝ) := by
        have : (0 : ℚ) ≤ edge_days now e.last_updated
            / edge_half_life half_lives st dt :=
          div_nonneg hdays (le_of_lt hpos)
        exact_mod_cast this
      have hfac : ((1 : ℝ) / 2)
          ^ (((edge_days now e.last_updated
              / edge_half_life half_lives st dt : ℚ) : ℝ)) ≤ 1 :=
        Real.rpow_le_one (by norm_num) (by norm_num) hexp
      have := mul_le_of_le_one_right (a := (e.weight : ℝ))
        (by exact_mod_cast hw) hfac
      simpa [decayed_weight, decay_factor, h] using this

/-- C6 witness: on a concrete two-node graph with one edge of weight 1 and
zero elapsed time, the decay theorem applies and bounds the post-decay
weight by the pre-decay weight. -/
theorem C6_decay_witness :
    decayed_weight 1
      (edge_half_life [("news", 5), ("price_event", 1)] "news" "price_event")
      (edge_days 0 0) ≤ ((1 : ℚ) : ℝ) :=
  (C6_decay Unit
    { nodes := [("A", some { id := "A", type := "news", ticker := none,
                             ts := 0, attrs := [], summary := "" }),
                ("B", some { id := "B", type := "price_event", ticker := none,
                             ts := 0, attrs := [], summary := "" })],
      edges := [(("A", "B"),
        { weight := 1, polarity := 1, last_updated := 0, evidence := [] })] }
    [("news", 5), ("price_event", 1)] 0 "A" "B"
    { weight := 1, polarity := 1, last_updated := 0, evidence := [] }
    "news" "price_event"
    (by decide) (by decide) (by decide) (by decide) (by decide)).2.2.2.2

/-- C5 witness: a concrete run — a graph holding the single edge
("A","B") with weight 1, polarity 1 and one evidence record; upserting
("A","B") with weight 1/2 yields weight 3/4, the new polarity −1, the
appended evidence list and the new timestamp, and the key invariant holds. -/
theorem C5_add_or_update_edge_witness :
    alookup ("A", "B") (add_or_update_edge
        (ε := Unit)
        { nodes := [("A", some { id := "A", type := "news", ticker := some "AAPL",
                                 ts := 0, attrs := [], summary := "a" }),
                    ("B", some { id := "B", type := "news", ticker := some "AAPL",
                                 ts := 1, attrs := [], summary := "b" })],
          edges := [(("A", "B"),
            { weight := 1, polarity := 1, last_updated := 0, evidence := [()] })] }
        "A" "B" (1/2) (-1) () 7).edges
      = some { weight := 3/4, polarity := -1, last_updated := 7,
               evidence := [(), ()] } := by
  have h := (C5_add_or_update_edge Unit
      { nodes := [("A", some { id := "A", type := "news", ticker := some "AAPL",
                               ts := 0, attrs := [], summary := "a" }),
                  ("B", some { id := "B", type := "news", ticker := some "AAPL",
                               ts := 1, attrs := [], summary := "b" })],
        edges := [(("A", "B"),
          { weight := 1, polarity := 1, last_updated := 0, evidence := [()] })] }
      "A" "B" (1/2) (-1) () 7).1
      { weight := 1, polarity := 1, last_updated := 0, evidence := [()] }
      (by decide)
  rw [h]
  norm_num

/-! ### Candidate gating (src/dyn_causal/gating.py) -/

/-- `GatingConfig` (config.py). The candidate cap is an `ℤ` because Python
ints are unbounded and the code compares with `>=`. Lag windows are in
minutes, as configured. -/
structure GatingConfig where
  max_candidate_edges_per_node : ℤ
  max_time_lag_minutes : ℚ
  max_bar_lag_minutes : ℚ
  allow_cross_ticker_within_sector : Bool
  allow_supply_chain_links : Bool
  allow_macro_to_sector_or_ticker : Bool
deriving DecidableEq, Repr

def isUpperAZ (c : Char) : Bool := decide ('A' ≤ c) && decide (c ≤ 'Z')

/-- A regex word character `[A-Za-z0-9_]`. -/
def isWordChar (c : Char) : Bool :=
  isUpperAZ c || (decide ('a' ≤ c) && decide (c ≤ 'z'))
    || (decide ('0' ≤ c) && decide (c ≤ '9')) || decide (c = '_')

/-- Matches of the cashtag pattern: each `$` followed by at least one
uppercase letter contributes the (greedy, at most 5) uppercase letters
after it. Scanning character by character is equivalent to the regex's
non-overlapping scan because the consumed letters contain no `$`. -/
def cashtags : List Char → List String
  | [] => []
  | c :: rest =>
      if c = '$' then
        let letters := (rest.takeWhile isUpperAZ).take 5
        if letters.isEmpty then cashtags rest
        else String.mk letters :: cashtags rest
      else cashtags rest

theorem dropWhile_length_le {α : Type} (p : α → Bool) (l : List α) :
    (l.dropWhile p).length ≤ l.length := by
  induction l with
  | nil => simp
  | cons a t ih =>
    cases h : p a with
    | true => simp only [List.dropWhile_cons, h, if_true]; exact Nat.le_succ_of_le ih
    | false => simp [List.dropWhile_cons, h]

/-- The maximal runs of word characters of a text. -/
def wordRuns : List Char → List (List Char)
  | [] => []
  | c :: rest =>
      if isWordChar c then
        (c :: rest.takeWhile isWordChar) :: wordRuns (rest.dropWhile isWordChar)
      else wordRuns rest
termination_by l => l.length
decreasing_by
  · simpa using Nat.lt_succ_of_le (dropWhile_length_le _ _)
  · simp

/-- Model of `extract_entities`: the cashtag captures plus every
boundary-delimited run of 1–5 uppercase letters (a maximal word-character
run qualifies exactly when it is all uppercase and at most 5 long — the
regex `[A-Z]` bounded by word boundaries on both sides). The Python set is
modelled as a list; only membership is ever used. -/
def extract_entities (text : String) : List String :=
  cashtags text.toList
    ++ (wordRuns text.toList).filterMap (fun run =>
        if run.all isUpperAZ && decide (run.length ≤ 5)
        then some (String.mk run) else none)

/-- Python truthiness of an optional string field. -/
def tick_truthy : Option String → Bool
  | none => false
  | some s => decide (s ≠ "")

/-- `sector_map.get(k)`: the stored value (which may itself be `None`) or
the default `None`. -/
def sector_get (m : List (String × Option String)) (k : String) : Option String :=
  (alookup k m).getD none

/-- `peers_map.get(k, [])` wrapped in `set(...)`; only membership is used. -/
def peers_get (m : List (String × List String)) (k : String) : List String :=
  (alookup k m).getD []

/-- The `CandidateGenerator` state: config, peers map, sector map. -/
structure CandidateGenerator where
  cfg : GatingConfig
  peers_map : List (String × List String)
  sector_map : List (String × Option String)

/-- Model of `CandidateGenerator._is_plausible_pred`: the ordered disjunction of
the acceptance clauses, each early `return True` becoming a disjunct
(`||` evaluates left to right, like the chain of `if` returns). -/
def is_plausible_pred (cg : CandidateGenerator) (cause effect : Event) : Bool :=
  let ct := ((alookup "headline" cause.attrs).getD "") ++ " "
              ++ cause.summary.getD ""
  let et := ((alookup "headline" effect.attrs).getD "") ++ " "
              ++ effect.summary.getD ""
  (tick_truthy cause.ticker && tick_truthy effect.ticker
      && decide (cause.ticker = effect.ticker))
  || (decide (cause.type = "macro") && cg.cfg.allow_macro_to_sector_or_ticker
      && tick_truthy effect.ticker)
  || (cg.cfg.allow_cross_ticker_within_sector && tick_truthy cause.ticker
      && tick_truthy effect.ticker
      && decide (sector_get cg.sector_map (cause.ticker.getD "")
            = sector_get cg.sector_map (effect.ticker.getD "")))
  || (cg.cfg.allow_supply_chain_links && tick_truthy cause.ticker
      && tick_truthy effect.ticker
      && decide ((effect.ticker.getD "") ∈ peers_get cg.peers_map (cause.ticker.getD "")))
  || (tick_truthy cause.ticker && decide ((cause.ticker.getD "") ∈ extract_entities et))
  || (tick_truthy effect.ticker && decide ((effect.ticker.getD "") ∈ extract_entities ct))

/-- The lag window applied to a new event, converted to seconds:
`max_bar_lag_minutes` when the new event is a price event, else
`max_time_lag_minutes`. -/
def lag_window (cg : CandidateGenerator) (new_event : Event) : ℚ :=
  if new_event.type = "price_event" then 60 * cg.cfg.max_bar_lag_minutes
  else 60 * cg.cfg.max_time_lag_minutes

/-- The loop of `CandidateGenerator.plausible_pairs`, with the accumulated
`pairs` list explicit. Each `continue` recurses without touching the
accumulator; the cap check runs only on iterations that pass every filter
(as in the source, where `continue` skips it), and `break` returns. -/
def plausible_pairs_aux (cg : CandidateGenerator) (new_event : Event) :
    List Event → List (Event × Event) → List (Event × Event)
  | [], pairs => pairs
  | ev :: rest, pairs =>
      if ev.id = new_event.id then plausible_pairs_aux cg new_event rest pairs
      else if new_event.ts ≤ ev.ts then plausible_pairs_aux cg new_event rest pairs
      else if lag_window cg new_event < new_event.ts - ev.ts then
        plausible_pairs_aux cg new_event rest pairs
      else
        let pairs' := if is_plausible_pred cg ev new_event
                      then pairs ++ [(ev, new_event)] else pairs
        if cg.cfg.max_candidate_edges_per_node ≤ (pairs'.length : ℤ) then pairs'
        else plausible_pairs_aux cg new_event rest pairs'

/-- Model of `CandidateGenerator.plausible_pairs`. -/
def plausible_pairs (cg : CandidateGenerator) (new_event : Event)
    (existing_events : List Event) : List (Event × Event) :=
  plausible_pairs_aux cg new_event existing_events []

theorem plausible_pairs_aux_mem (cg : CandidateGenerator) (ne : Event)
    (es : List Event) :
    ∀ acc pr, pr ∈ plausible_pairs_aux cg ne es acc →
      pr ∈ acc ∨ (pr.2 = ne ∧ pr.1.ts < ne.ts ∧ ne.ts - pr.1.ts ≤ lag_window cg ne) := by
  induction es with
  | nil =>
    intro acc pr h
    exact Or.inl (by simpa [plausible_pairs_aux] using h)
  | cons ev rest ih =>
    intro acc pr h
    by_cases hid : ev.id = ne.id
    · exact ih acc pr (by simpa [plausible_pairs_aux, hid] using h)
    · by_cases hts : ne.ts ≤ ev.ts
      · exact ih acc pr (by simpa [plausible_pairs_aux, hid, hts] using h)
      · by_cases hlag : lag_window cg ne < ne.ts - ev.ts
        · exact ih acc pr (by simpa [plausible_pairs_aux, hid, hts, hlag] using h)
        · have hts' : ev.ts < ne.ts := lt_of_not_le hts
          have hlag' : ne.ts - ev.ts ≤ lag_window cg ne := le_of_not_lt hlag
          by_cases hpl : is_plausible_pred cg ev ne = true
          · by_cases hcap : cg.cfg.max_candidate_edges_per_node
                ≤ (acc.length : ℤ) + 1
            · have h' : pr ∈ acc ++ [(ev, ne)] := by
                simpa [plausible_pairs_aux, hid, hts, hlag, hpl, hcap] using h
              rcases List.mem_append.mp h' with h1 | h1
              · exact Or.inl h1
              · have : pr = (ev, ne) := by simpa using h1
                subst this
                exact Or.inr ⟨rfl, hts', hlag'⟩
            · have h' : pr ∈ plausible_pairs_aux cg ne rest (acc ++ [(ev, ne)]) := by
                simpa [plausible_pairs_aux, hid, hts, hlag, hpl, hcap] using h
              rcases ih _ pr h' with h1 | h1
              · rcases List.mem_append.mp h1 with h2 | h2
                · exact Or.inl h2
                · have : pr = (ev, ne) := by simpa using h2
                  subst this
                  exact Or.inr ⟨rfl, hts', hlag'⟩
              · exact Or.inr h1
          · by_cases hcap : cg.cfg.max_candidate_edges_per_node ≤ (acc.length : ℤ)
            · exact Or.inl (by simpa [plausible_pairs_aux, hid, hts, hlag, hpl, hcap] using h)
            · exact ih acc pr (by simpa [plausible_pairs_aux, hid, hts, hlag, hpl, hcap] using h)

theorem plausible_pairs_aux_length_lt (cg : CandidateGenerator) (ne : Event)
    (es : List Event) :
    ∀ acc, (acc.length : ℤ) < cg.cfg.max_candidate_edges_per_node →
      ((plausible_pairs_aux cg ne es acc).length : ℤ)
        ≤ cg.cfg.max_candidate_edges_per_node := by
  induction es with
  | nil =>
    intro acc hacc
    simpa [plausible_pairs_aux] using le_of_lt hacc
  | cons ev rest ih =>
    intro acc hacc
    by_cases hid : ev.id = ne.id
    · simpa [plausible_pairs_aux, hid] using ih acc hacc
    · by_cases hts : ne.ts ≤ ev.ts
      · simpa [plausible_pairs_aux, hid, hts] using ih acc hacc
      · by_cases hlag : lag_window cg ne < ne.ts - ev.ts
        · simpa [plausible_pairs_aux, hid, hts, hlag] using ih acc hacc
        · by_cases hpl : is_plausible_pred cg ev ne = true
          · have hlen : ((acc.length : ℤ)) + 1 ≤ cg.cfg.max_candidate_edges_per_node :=
              Int.add_one_le_iff.mpr hacc
            by_cases hcap : cg.cfg.max_candidate_edges_per_node
                ≤ (acc.length : ℤ) + 1
            · simpa [plausible_pairs_aux, hid, hts, hlag, hpl, hcap] using hlen
            · have hlt : (((acc ++ [(ev, ne)]).length : ℤ))
                  < cg.cfg.max_candidate_edges_per_node := by
                have := lt_of_not_le hcap
                simpa using this
              have h' := ih (acc ++ [(ev, ne)]) hlt
              simpa [plausible_pairs_aux, hid, hts, hlag, hpl, hcap] using h'
          · by_cases hcap : cg.cfg.max_candidate_edges_per_node ≤ (acc.length : ℤ)
            · exact absurd hcap (not_le.mpr hacc)
            · simpa [plausible_pairs_aux, hid, hts, hlag, hpl, hcap] using ih acc hacc

theorem plausible_pairs_aux_length_saturated (cg : CandidateGenerator) (ne : Event)
    (es : List Event) :
    ∀ acc, cg.cfg.max_candidate_edges_per_node ≤ (acc.length : ℤ) →
      (plausible_pairs_aux cg ne es acc).length ≤ acc.length + 1 := by
  induction es with
  | nil =>
    intro acc _
    simp [plausible_pairs_aux]
  | cons ev rest ih =>
    intro acc hacc
    by_cases hid : ev.id = ne.id
    · simpa [plausible_pairs_aux, hid] using ih acc hacc
    · by_cases hts : ne.ts ≤ ev.ts
      · simpa [plausible_pairs_aux, hid, hts] using ih acc hacc
      · by_cases hlag : lag_window cg ne < ne.ts - ev.ts
        · simpa [plausible_pairs_aux, hid, hts, hlag] using ih acc hacc
        · by_cases hpl : is_plausible_pred cg ev ne = true
          · have hcap : cg.cfg.max_candidate_edges_per_node
                ≤ (acc.length : ℤ) + 1 := by
              refine le_trans hacc ?_
              omega
            simp [plausible_pairs_aux, hid, hts, hlag, hpl, hcap]
          · have hcap : cg.cfg.max_candidate_edges_per_node ≤ (acc.length : ℤ) := hacc
            simp [plausible_pairs_aux, hid, hts, hlag, hpl, hcap]

theorem plausible_pairs_aux_stop (cg : CandidateGenerator) (ne : Event)
    (es : List Event) :
    ∀ es' acc, (acc.length : ℤ) < cg.cfg.max_candidate_edges_per_node →
      cg.cfg.max_candidate_edges_per_node
          ≤ ((plausible_pairs_aux cg ne es acc).length : ℤ) →
      plausible_pairs_aux cg ne (es ++ es') acc = plausible_pairs_aux cg ne es acc := by
  induction es with
  | nil =>
    intro es' acc hacc hsat
    rw [show plausible_pairs_aux cg ne [] acc = acc from rfl] at hsat
    exact absurd hsat (not_le.mpr hacc)
  | cons ev rest ih =>
    intro es' acc hacc hsat
    by_cases hid : ev.id = ne.id
    · rw [show plausible_pairs_aux cg ne (ev :: rest) acc
          = plausible_pairs_aux cg ne rest acc by simp [plausible_pairs_aux, hid]] at hsat
      simpa [plausible_pairs_aux, hid] using ih es' acc hacc hsat
    · by_cases hts : ne.ts ≤ ev.ts
      · rw [show plausible_pairs_aux cg ne (ev :: rest) acc
            = plausible_pairs_aux cg ne rest acc by simp [plausible_pairs_aux, hid, hts]] at hsat
        simpa [plausible_pairs_aux, hid, hts] using ih es' acc hacc hsat
      · by_cases hlag : lag_window cg ne < ne.ts - ev.ts
        · rw [show plausible_pairs_aux cg ne (ev :: rest) acc
              = plausible_pairs_aux cg ne rest acc by
                simp [plausible_pairs_aux, hid, hts, hlag]] at hsat
          simpa [plausible_pairs_aux, hid, hts, hlag] using ih es' acc hacc hsat
        · by_cases hpl : is_plausible_pred cg ev ne = true
          · by_cases hcap : cg.cfg.max_candidate_edges_per_node
                ≤ (acc.length : ℤ) + 1
            · simp [plausible_pairs_aux, hid, hts, hlag, hpl, hcap]
            · have hlt : (((acc ++ [(ev, ne)]).length : ℤ))
                  < cg.cfg.max_candidate_edges_per_node := by
                have := lt_of_not_le hcap
                simpa using this
              rw [show plausible_pairs_aux cg ne (ev :: rest) acc
                  = plausible_pairs_aux cg ne rest (acc ++ [(ev, ne)]) by
                    simp [plausible_pairs_aux, hid, hts, hlag, hpl, hcap]] at hsat
              simpa [plausible_pairs_aux, hid, hts, hlag, hpl, hcap] using
                ih es' (acc ++ [(ev, ne)]) hlt hsat
          · by_cases hcap : cg.cfg.max_candidate_edges_per_node ≤ (acc.length : ℤ)
            · exact absurd hcap (not_le.mpr hacc)
            · rw [show plausible_pairs_aux cg ne (ev :: rest) acc
                  = plausible_pairs_aux cg ne rest acc by
                    simp [plausible_pairs_aux, hid, hts, hlag, hpl, hcap]] at hsat
              simpa [plausible_pairs_aux, hid, hts, hlag, hpl, hcap] using
                ih es' acc hacc hsat

/-- C7 counterexample: with the candidate cap configured to 0, inserting a
same-ticker candidate yields a result of length 1 — the cap check runs
only after a pair has been appended, so the returned list exceeds the
configured maximum. This refutes the claim's bound `length ≤ cap` as
stated. -/
theorem C7_counterexample :
    ¬ (((plausible_pairs
          ⟨⟨0, 1440, 90, true, true, true⟩, [], []⟩
          { id := "n", type := "news", ticker := some "AAPL", ts := 60,
            attrs := [], summary := none }
          [{ id := "c", type := "news", ticker := some "AAPL", ts := 0,
             attrs := [], summary := none }]).length : ℤ)
        ≤ (0 : ℤ)) := by
  have h : plausible_pairs
      ⟨⟨0, 1440, 90, true, true, true⟩, [], []⟩
      { id := "n", type := "news", ticker := some "AAPL", ts := 60,
        attrs := [], summary := none }
      [{ id := "c", type := "news", ticker := some "AAPL", ts := 0,
         attrs := [], summary := none }]
      = [({ id := "c", type := "news", ticker := some "AAPL", ts := 0,
            attrs := [], summary := none },
          { id := "n", type := "news", ticker := some "AAPL", ts := 60,
            attrs := [], summary := none })] := by
    simp [plausible_pairs, plausible_pairs_aux, lag_window, is_plausible_pred, tick_truthy]
  rw [h]
  decide

/-- C7 (amended): every pair returned by `plausible_pairs` has the new
event as effect, `cause.ts < effect.ts`, and a lag of at most the
applicable window (bar lag for price events, else time lag); the result
length is at most `max(cap, 1)` — `cap` itself whenever `cap ≥ 1`, with one
extra pair possible only in the degenerate `cap ≤ 0` configuration — and
once the cap (≥ 1) is reached, generation has stopped: events supplied
after that point can no longer change the result. -/
theorem C7_plausible_pairs (cg : CandidateGenerator) (ne : Event)
    (es : List Event) :
    (∀ pr ∈ plausible_pairs cg ne es,
        pr.2 = ne ∧ pr.1.ts < ne.ts ∧ ne.ts - pr.1.ts ≤ lag_window cg ne)
    ∧ ((plausible_pairs cg ne es).length : ℤ)
        ≤ max cg.cfg.max_candidate_edges_per_node 1
    ∧ (∀ es', 1 ≤ cg.cfg.max_candidate_edges_per_node →
        cg.cfg.max_candidate_edges_per_node ≤ ((plausible_pairs cg ne es).length : ℤ) →
        plausible_pairs cg ne (es ++ es') = plausible_pairs cg ne es) := by
  refine ⟨?_, ?_, ?_⟩
  · intro pr hpr
    rcases plausible_pairs_aux_mem cg ne es [] pr hpr with h | h
    · simp at h
    · exact h
  · by_cases hcap : 1 ≤ cg.cfg.max_candidate_edges_per_node
    · have h := plausible_pairs_aux_length_lt cg ne es []
        (by simpa using lt_of_lt_of_le Int.zero_lt_one hcap)
      exact le_trans h (le_max_left _ _)
    · have hc0 : cg.cfg.max_candidate_edges_per_node ≤ (0 : ℤ) := by omega
      have hcap' : cg.cfg.max_candidate_edges_per_node ≤ ((([] : List (Event × Event))).length : ℤ) := by
        simpa using hc0
      have h := plausible_pairs_aux_length_saturated cg ne es [] hcap'
      have h1 : ((plausible_pairs cg ne es).length : ℤ) ≤ 1 := by
        have := h
        simp only [List.length_nil, Nat.zero_add] at this
        exact_mod_cast this
      exact le_trans h1 (le_max_right _ _)
  · intro es' hone hsat
    exact plausible_pairs_aux_stop cg ne es es' []
      (by simpa using lt_of_lt_of_le Int.zero_lt_one hone) hsat

/-- C10: with cross-ticker-within-sector linking enabled, a cause/effect
pair with distinct non-empty tickers that are both absent from the sector
map is accepted by `_is_plausible_pred`: both `sector_map.get` lookups return
the default `None`, which compare equal, so the sector clause fires. -/
theorem C10_sector_default_accepted (cg : CandidateGenerator)
    (cause effect : Event) (ct et : String)
    (henabled : cg.cfg.allow_cross_ticker_within_sector = true)
    (hct : cause.ticker = some ct) (het : effect.ticker = some et)
    (hctne : ct ≠ "") (hetne : et ≠ "") (hne : ct ≠ et)
    (hcs : alookup ct cg.sector_map = none)
    (hes : alookup et cg.sector_map = none) :
    is_plausible_pred cg cause effect = true := by
  have h1 : sector_get cg.sector_map ct = none := by simp [sector_get, hcs]
  have h2 : sector_get cg.sector_map et = none := by simp [sector_get, hes]
  simp [is_plausible_pred, tick_truthy, hct, het, hctne, hetne, henabled, h1, h2]

/-- C10 witness: two events with tickers "AAA" and "BBB" and an empty
sector map are accepted as a plausible pair. -/
theorem C10_sector_default_accepted_witness :
    is_plausible_pred ⟨⟨10, 1440, 90, true, true, true⟩, [], []⟩
      { id := "a", type := "news", ticker := some "AAA", ts := 0,
        attrs := [], summary := none }
      { id := "b", type := "news", ticker := some "BBB", ts := 60,
        attrs := [], summary := none } = true :=
  C10_sector_default_accepted ⟨⟨10, 1440, 90, true, true, true⟩, [], []⟩
    { id := "a", type := "news", ticker := some "AAA", ts := 0,
      attrs := [], summary := none }
    { id := "b", type := "news", ticker := some "BBB", ts := 60,
      attrs := [], summary := none }
    "AAA" "BBB" rfl rfl rfl (by decide) (by decide) (by decide) rfl rfl

/-! ### Budget limiter and the orchestrator's pair-evaluation loop
(src/dyn_causal/orchestrator.py) -/

/-- `WeightConfig` (config.py): blend parameters for accepted edges. -/
structure WeightConfig where
  alpha_blend : ℚ
  initial_edge_weight : ℚ
  min_confidence_to_add : ℚ
deriving DecidableEq, Repr

/-- The budget counter: `_budget_day` (the calendar day, as an abstract
integer — `date.today()` is modelled as a day-valued parameter) and
`_edges_used_today`. -/
structure BudgetState where
  budget_day : ℤ
  edges_used_today : ℕ
deriving DecidableEq, Repr

/-- The daily cap
`max(1, int(daily_usd_cap / max(est_usd_per_edge, 1e-9)))`. Python `int()`
truncates toward zero; for a nonnegative quotient that is the floor, and a
negative quotient is clamped to 1 by the outer `max` whether floored or
truncated, so `Int.toNat ∘ Int.floor` gives the same cap. -/
def edges_day_cap (daily_usd_cap est_usd_per_edge : ℚ) : ℕ :=
  max 1 (Int.toNat (Int.floor (daily_usd_cap / max est_usd_per_edge (1 / 1000000000))))

/-- The state update performed by `_budget_edge_available`: reset the
used-count and advance the stored day exactly when the stored day differs
from the current day. -/
def budget_check_state (today : ℤ) (s : BudgetState) : BudgetState :=
  if today ≠ s.budget_day then { budget_day := today, edges_used_today := 0 } else s

/-- Model of `Orchestrator._budget_edge_available`: the returned
availability flag and the post-check counter state. -/
def budget_edge_available (today : ℤ) (cap : ℕ) (s : BudgetState) :
    Bool × BudgetState :=
  (decide ((budget_check_state today s).edges_used_today < cap),
    budget_check_state today s)

/-- The judge record as the orchestrator reads it after coercion:
`int(judge.get("edge", 0))`, `int(judge.get("polarity", 0))`,
`float(judge.get("confidence", 0.0))`. -/
structure JudgeDecision where
  edge : ℤ
  polarity : ℤ
  confidence : ℚ
deriving DecidableEq, Repr

/-- The event-log records the pair loop can append. -/
inductive LogEntry
  | budget_skip_pair (src dst : String)
  | add_or_update_edge (src dst : String) (weight : ℚ) (polarity : ℤ)
deriving DecidableEq, Repr

/-- The orchestrator state threaded through the pair loop. `debates` counts
`run_debate` invocations (it is bookkeeping for the budget claims, not a
Python field). -/
structure LoopState (ε : Type) where
  graph : DynamicCausalGraph ε
  budget : BudgetState
  log : List LogEntry
  debates : ℕ

/-- One candidate pair as the loop sees it: the cause/effect node ids, the
judge record its `run_debate` call returns (the external consensus call is
an oracle input), and the evidence payload recorded on an accepted edge. -/
structure PairEval (ε : Type) where
  src : String
  dst : String
  judge : JudgeDecision
  evidence : ε

/-- The body of the `for cause, effect in pairs` loop of
`Orchestrator.insert_event`: if the budget is unavailable append
`budget_skip_pair` and move on (no other state change); otherwise run the
debate (one unit of budget and one debate, whatever the outcome), then
discard when `judge.edge ≠ 1` or `confidence < min_confidence_to_add`, else
upsert the edge with the blended weight and append `add_or_update_edge`. -/
def pair_step {ε : Type} (W : WeightConfig) (cap : ℕ) (today : ℤ) (now : ℚ)
    (st : LoopState ε) (pe : PairEval ε) : LoopState ε :=
  if ¬ (budget_check_state today st.budget).edges_used_today < cap then
    { st with
      budget := budget_check_state today st.budget,
      log := st.log ++ [LogEntry.budget_skip_pair pe.src pe.dst] }
  else
    let st2 : LoopState ε :=
      { st with
        budget := { budget_day := (budget_check_state today st.budget).budget_day,
                    edges_used_today :=
                      (budget_check_state today st.budget).edges_used_today + 1 },
        debates := st.debates + 1 }
    if pe.judge.edge ≠ 1 then st2
    else if pe.judge.confidence < W.min_confidence_to_add then st2
    else
      { st2 with
        graph := add_or_update_edge st2.graph pe.src pe.dst
          (W.alpha_blend * pe.judge.confidence
            + (1 - W.alpha_blend) * W.initial_edge_weight)
          pe.judge.polarity pe.evidence now,
        log := st2.log ++ [LogEntry.add_or_update_edge pe.src pe.dst
          (W.alpha_blend * pe.judge.confidence
            + (1 - W.alpha_blend) * W.initial_edge_weight)
          pe.judge.polarity] }

/-- The whole pair loop; a sequence of `insert_event` calls within one day
is the fold of this over the concatenation of their pair lists. -/
def insert_event_pairs {ε : Type} (W : WeightConfig) (cap : ℕ) (today : ℤ)
    (now : ℚ) (st : LoopState ε) (pairs : List (PairEval ε)) : LoopState ε :=
  pairs.foldl (pair_step W cap today now) st

theorem pair_step_budget_of_avail {ε : Type} (W : WeightConfig) (cap : ℕ)
    (today : ℤ) (now : ℚ) (st : LoopState ε) (pe : PairEval ε)
    (hok : (budget_check_state today st.budget).edges_used_today < cap) :
    (pair_step W cap today now st pe).budget.budget_day
        = (budget_check_state today st.budget).budget_day
    ∧ (pair_step W cap today now st pe).budget.edges_used_today
        = (budget_check_state today st.budget).edges_used_today + 1
    ∧ (pair_step W cap today now st pe).debates = st.debates + 1 := by
  by_cases he : pe.judge.edge = 1
  · by_cases hc : pe.judge.confidence < W.min_confidence_to_add
    · simp [pair_step, hok, he, hc]
    · simp [pair_step, hok, he, hc]
  · simp [pair_step, hok, he]

theorem pair_step_budget_of_skip {ε : Type} (W : WeightConfig) (cap : ℕ)
    (today : ℤ) (now : ℚ) (st : LoopState ε) (pe : PairEval ε)
    (hok : ¬ (budget_check_state today st.budget).edges_used_today < cap) :
    (pair_step W cap today now st pe).budget = budget_check_state today st.budget
    ∧ (pair_step W cap today now st pe).debates = st.debates
    ∧ (pair_step W cap today now st pe).graph = st.graph := by
  simp [pair_step, hok]

theorem insert_event_pairs_inv {ε : Type} (W : WeightConfig) (cap : ℕ)
    (today : ℤ) (now : ℚ) (pairs : List (PairEval ε)) :
    ∀ st : LoopState ε, st.budget.budget_day = today →
      st.budget.edges_used_today ≤ cap →
      (insert_event_pairs W cap today now st pairs).budget.budget_day = today
      ∧ (insert_event_pairs W cap today now st pairs).budget.edges_used_today ≤ cap
      ∧ (insert_event_pairs W cap today now st pairs).debates
            + st.budget.edges_used_today
          = st.debates
            + (insert_event_pairs W cap today now st pairs).budget.edges_used_today := by
  induction pairs with
  | nil =>
    intro st h1 h2
    exact ⟨h1, h2, rfl⟩
  | cons pe rest ih =>
    intro st h1 h2
    have hb : budget_check_state today st.budget = st.budget := by
      simp [budget_check_state, h1]
    have hfold : insert_event_pairs W cap today now st (pe :: rest)
        = insert_event_pairs W cap today now (pair_step W cap today now st pe) rest := rfl
    rw [hfold]
    by_cases hok : (budget_check_state today st.budget).edges_used_today < cap
    · obtain ⟨hd, hu, hdeb⟩ :=
        pair_step_budget_of_avail W cap today now st pe hok
      rw [hb] at hd hu
      rw [h1] at hd
      have hule : (pair_step W cap today now st pe).budget.edges_used_today ≤ cap := by
        rw [hu]
        have : st.budget.edges_used_today < cap := by rw [hb] at hok; exact hok
        omega
      obtain ⟨i1, i2, i3⟩ := ih (pair_step W cap today now st pe) hd hule
      refine ⟨i1, i2, ?_⟩
      rw [hu, hdeb] at i3
      omega
    · obtain ⟨hbud, hdeb, _⟩ :=
        pair_step_budget_of_skip W cap today now st pe hok
      rw [hb] at hbud
      have hd : (pair_step W cap today now st pe).budget.budget_day = today := by
        rw [hbud, h1]
      have hule : (pair_step W cap today now st pe).budget.edges_used_today ≤ cap := by
        rw [hbud]; exact h2
      obtain ⟨i1, i2, i3⟩ := ih (pair_step W cap today now st pe) hd hule
      refine ⟨i1, i2, ?_⟩
      rw [hbud] at i3
      rw [hdeb] at i3
      omega

/-- C3: (i) with a per-evaluation cost estimate of at least 1e-9 the daily
cap is exactly `max(1, floor(daily_usd_cap / est_usd_per_edge))`; (ii) an
availability check resets the used-count to zero and advances the stored
day exactly when the stored day differs from the current calendar day, and
leaves the counter untouched otherwise; (iii) over any pair list processed
within one calendar day starting from a fresh counter, the number of
consensus evaluations (`run_debate` calls) is at most the daily cap; and
(iv) an available-budget evaluation whose judge rejects the edge
(`judge.edge ≠ 1`) still consumes exactly one unit of budget and one
debate, leaving the graph unchanged. -/
theorem C3_budget_cap (ε : Type) (daily est : ℚ) (W : WeightConfig)
    (today : ℤ) (now : ℚ) (s : BudgetState) (st : LoopState ε)
    (pairs : List (PairEval ε)) :
    ((1 : ℚ) / 1000000000 ≤ est →
        edges_day_cap daily est = max 1 (Int.toNat (Int.floor (daily / est))))
    ∧ ((today ≠ s.budget_day →
          budget_check_state today s
            = { budget_day := today, edges_used_today := 0 })
        ∧ (today = s.budget_day → budget_check_state today s = s)
        ∧ (budget_edge_available today (edges_day_cap daily est) s).1
            = decide ((budget_check_state today s).edges_used_today
                < edges_day_cap daily est))
    ∧ (st.budget.budget_day = today → st.budget.edges_used_today = 0 →
        st.debates = 0 →
        (insert_event_pairs W (edges_day_cap daily est) today now st pairs).debates
          ≤ edges_day_cap daily est)
    ∧ (∀ pe : PairEval ε,
        (budget_check_state today st.budget).edges_used_today
            < edges_day_cap daily est →
        pe.judge.edge ≠ 1 →
        (pair_step W (edges_day_cap daily est) today now st pe).budget.edges_used_today
            = (budget_check_state today st.budget).edges_used_today + 1
        ∧ (pair_step W (edges_day_cap daily est) today now st pe).debates
            = st.debates + 1
        ∧ (pair_step W (edges_day_cap daily est) today now st pe).graph = st.graph) := by
  refine ⟨?_, ⟨?_, ?_, rfl⟩, ?_, ?_⟩
  · intro hest
    have : max est ((1 : ℚ) / 1000000000) = est := max_eq_left hest
    rw [edges_day_cap, this]
  · intro h
    simp [budget_check_state, h]
  · intro h
    simp [budget_check_state, h]
  · intro h1 h2 h3
    obtain ⟨_, i2, i3⟩ := insert_event_pairs_inv W (edges_day_cap daily est)
      today now pairs st h1 (by omega)
    omega
  · intro pe hok hrej
    obtain ⟨_, hu, hdeb⟩ :=
      pair_step_budget_of_avail W (edges_day_cap daily est) today now st pe hok
    refine ⟨hu, hdeb, ?_⟩
    simp [pair_step, hok, hrej]

/-- C3 witness: a concrete run — cap( daily=1, est=0.0005 ) = 2000; on a
fresh same-day state, two evaluated pairs (one of them rejected by the
judge) give two debates, within the cap. -/
theorem C3_budget_cap_witness :
    (insert_event_pairs (ε := Unit) ⟨7/10, 55/100, 1/2⟩
        (edges_day_cap 1 (5/10000)) 0 0
        { graph := emptyGraph Unit, budget := { budget_day := 0, edges_used_today := 0 },
          log := [], debates := 0 }
        [{ src := "a", dst := "b", judge := { edge := 1, polarity := 1, confidence := 8/10 },
           evidence := () },
         { src := "a", dst := "c", judge := { edge := 0, polarity := 0, confidence := 0 },
           evidence := () }]).debates
      ≤ edges_day_cap 1 (5/10000) :=
  (C3_budget_cap Unit 1 (5/10000) ⟨7/10, 55/100, 1/2⟩ 0 0
      { budget_day := 0, edges_used_today := 0 }
      { graph := emptyGraph Unit, budget := { budget_day := 0, edges_used_today := 0 },
        log := [], debates := 0 }
      [{ src := "a", dst := "b", judge := { edge := 1, polarity := 1, confidence := 8/10 },
         evidence := () },
       { src := "a", dst := "c", judge := { edge := 0, polarity := 0, confidence := 0 },
         evidence := () }]).2.2.1 rfl rfl rfl

/-- C4: when the budget check passes for a candidate pair: if the judge
does not affirm the edge or its confidence is below
`min_confidence_to_add`, the graph and the log are unchanged (no upsert,
no `add_or_update_edge` record); otherwise the edge is upserted with
weight `alpha_blend·confidence + (1 − alpha_blend)·initial_edge_weight`
and the judge's polarity, and the matching log record is appended.
Instantiated at alpha 0.7, confidence 0.8, initial weight 0.55 on a fresh
graph, the created edge has weight exactly 0.725 and polarity +1. -/
theorem C4_judge_gate_and_blend (ε : Type) (W : WeightConfig) (cap : ℕ)
    (today : ℤ) (now : ℚ) (st : LoopState ε) (pe : PairEval ε)
    (hok : (budget_check_state today st.budget).edges_used_today < cap) :
    ((pe.judge.edge ≠ 1 ∨ pe.judge.confidence < W.min_confidence_to_add) →
        (pair_step W cap today now st pe).graph = st.graph
        ∧ (pair_step W cap today now st pe).log = st.log)
    ∧ (pe.judge.edge = 1 → ¬ pe.judge.confidence < W.min_confidence_to_add →
        (pair_step W cap today now st pe).graph
            = add_or_update_edge st.graph pe.src pe.dst
                (W.alpha_blend * pe.judge.confidence
                  + (1 - W.alpha_blend) * W.initial_edge_weight)
                pe.judge.polarity pe.evidence now
        ∧ (pair_step W cap today now st pe).log
            = st.log ++ [LogEntry.add_or_update_edge pe.src pe.dst
                (W.alpha_blend * pe.judge.confidence
                  + (1 - W.alpha_blend) * W.initial_edge_weight)
                pe.judge.polarity])
    ∧ alookup ("a", "b")
        (pair_step (ε := Unit) ⟨7/10, 55/100, 1/2⟩ 5 0 0
          { graph := emptyGraph Unit,
            budget := { budget_day := 0, edges_used_today := 0 },
            log := [], debates := 0 }
          { src := "a", dst := "b",
            judge := { edge := 1, polarity := 1, confidence := 8/10 },
            evidence := () }).graph.edges
        = some { weight := 725/1000, polarity := 1, last_updated := 0,
                 evidence := [()] } := by
  refine ⟨?_, ?_, ?_⟩
  · intro h
    rcases h with h | h
    · constructor <;> simp [pair_step, hok, h]
    · by_cases he : pe.judge.edge = 1
      · constructor <;> simp [pair_step, hok, he, h]
      · constructor <;> simp [pair_step, hok, he]
  · intro he hc
    constructor <;> simp [pair_step, hok, he, hc]
  · have hstep : (pair_step (ε := Unit) ⟨7/10, 55/100, 1/2⟩ 5 0 0
        { graph := emptyGraph Unit,
          budget := { budget_day := 0, edges_used_today := 0 },
          log := [], debates := 0 }
        { src := "a", dst := "b",
          judge := { edge := 1, polarity := 1, confidence := 8/10 },
          evidence := () }).graph.edges
        = [(("a", "b"),
            { weight := 7/10 * (8/10) + (1 - 7/10) * (55/100),
              polarity := 1, last_updated := 0, evidence := [()] })] := by
      simp [pair_step, budget_check_state, emptyGraph, add_or_update_edge, alookup]
      norm_num
    rw [hstep]
    have : (7 : ℚ)/10 * (8/10) + (1 - 7/10) * (55/100) = 725/1000 := by norm_num
    simp [alookup, this]

/-- C4 witness: the concrete scenario-B computation extracted through the
theorem: a fresh edge created at alpha 0.7, confidence 0.8, initial
weight 0.55 carries weight 0.725 and polarity +1. -/
theorem C4_judge_gate_and_blend_witness :
    alookup ("a", "b")
        (pair_step (ε := Unit) ⟨7/10, 55/100, 1/2⟩ 5 0 0
          { graph := emptyGraph Unit,
            budget := { budget_day := 0, edges_used_today := 0 },
            log := [], debates := 0 }
          { src := "a", dst := "b",
            judge := { edge := 1, polarity := 1, confidence := 8/10 },
            evidence := () }).graph.edges
        = some { weight := 725/1000, polarity := 1, last_updated := 0,
                 evidence := [()] } :=
  (C4_judge_gate_and_blend Unit ⟨7/10, 55/100, 1/2⟩ 5 0 0
      { graph := emptyGraph Unit,
        budget := { budget_day := 0, edges_used_today := 0 },
        log := [], debates := 0 }
      { src := "a", dst := "b",
        judge := { edge := 1, polarity := 1, confidence := 8/10 },
        evidence := () }
      (by decide)).2.2

/-! ### Signal aggregation and alerts
(src/dyn_causal/inference.py, src/dyn_causal/alerts.py) -/

/-- The `"ticker"` attribute the aggregation reads off an edge's
destination node: `nodes.get(e["dst"])` followed by `dst.get("ticker")`;
`none` when the node is missing, implicit, or has no ticker. -/
def dst_ticker {ε : Type} (nodes : List (String × Option NodeData))
    (e : (String × String) × EdgeData ε) : Option String :=
  (alookup e.1.2 nodes).bind (fun o => o.bind NodeData.ticker)

/-- The loop body of `aggregate_edge_signals`, accumulating (up, down). -/
def agg_step {ε : Type} (nodes : List (String × Option NodeData)) (T : String)
    (acc : ℚ × ℚ) (e : (String × String) × EdgeData ε) : ℚ × ℚ :=
  match alookup e.1.2 nodes with
  | none => acc
  | some o =>
      if o.bind NodeData.ticker = some T then
        if 0 < e.2.polarity then (acc.1 + e.2.weight, acc.2)
        else if e.2.polarity < 0 then (acc.1, acc.2 + e.2.weight)
        else acc
      else acc

/-- Model of `aggregate_edge_signals(snapshot, ticker)`: walk the snapshot
edges accumulating the up/down weight sums over edges whose destination
node carries the ticker, and return `(abs(net), 1 if net >= 0 else -1)`. -/
def aggregate_edge_signals {ε : Type} (g : DynamicCausalGraph ε) (T : String) :
    ℚ × ℤ :=
  let ud := g.edges.foldl (agg_step g.nodes T) (0, 0)
  (|ud.1 - ud.2|, if 0 ≤ ud.1 - ud.2 then 1 else -1)

/-- Claim-side definition, written from the spec's words: the sum of the
weights of the snapshot edges whose destination node has ticker `T` and
positive polarity. -/
def up_sum {ε : Type} (nodes : List (String × Option NodeData)) (T : String)
    (es : List ((String × String) × EdgeData ε)) : ℚ :=
  ((es.filter (fun e => decide (dst_ticker nodes e = some T)
      && decide (0 < e.2.polarity))).map (fun e => e.2.weight)).sum

/-- Claim-side definition: the same sum over negative polarity. -/
def down_sum {ε : Type} (nodes : List (String × Option NodeData)) (T : String)
    (es : List ((String × String) × EdgeData ε)) : ℚ :=
  ((es.filter (fun e => decide (dst_ticker nodes e = some T)
      && decide (e.2.polarity < 0))).map (fun e => e.2.weight)).sum

/-- Claim-side definition: the aggregate signal, positive-sum minus
negative-sum. -/
def spec_net {ε : Type} (g : DynamicCausalGraph ε) (T : String) : ℚ :=
  up_sum g.nodes T g.edges - down_sum g.nodes T g.edges

theorem agg_foldl_eq {ε : Type} (nodes : List (String × Option NodeData))
    (T : String) (es : List ((String × String) × EdgeData ε)) :
    ∀ acc : ℚ × ℚ, es.foldl (agg_step nodes T) acc
      = (acc.1 + up_sum nodes T es, acc.2 + down_sum nodes T es) := by
  induction es with
  | nil => intro acc; simp [up_sum, down_sum]
  | cons e rest ih =>
    intro acc
    have hstep : List.foldl (agg_step nodes T) acc (e :: rest)
        = List.foldl (agg_step nodes T) (agg_step nodes T acc e) rest := rfl
    rw [hstep, ih]
    cases hlk : alookup e.1.2 nodes with
    | none =>
      have hdt : ¬ dst_ticker nodes e = some T := by
        simp [dst_ticker, hlk]
      simp [agg_step, hlk, up_sum, down_sum, hdt]
    | some o =>
      by_cases htk : o.bind NodeData.ticker = some T
      · have hdt : dst_ticker nodes e = some T := by
          simp [dst_ticker, hlk, htk]
        by_cases hp : 0 < e.2.polarity
        · have hn : ¬ e.2.polarity < 0 := by omega
          simp [agg_step, hlk, htk, hp, hn, up_sum, down_sum, hdt]
          ring
        · by_cases hn : e.2.polarity < 0
          · simp [agg_step, hlk, htk, hp, hn, up_sum, down_sum, hdt]
            ring
          · simp [agg_step, hlk, htk, hp, hn, up_sum, down_sum, hdt]
      · have hdt : ¬ dst_ticker nodes e = some T := by
          simp [dst_ticker, hlk, htk]
        simp [agg_step, hlk, htk, up_sum, down_sum, hdt]

theorem aggregate_eq_spec {ε : Type} (g : DynamicCausalGraph ε) (T : String) :
    aggregate_edge_signals g T
      = (|spec_net g T|, if 0 ≤ spec_net g T then 1 else -1) := by
  have h := agg_foldl_eq g.nodes T g.edges (0, 0)
  rw [aggregate_edge_signals]
  rw [h]
  simp [spec_net]

/-- Model of `logistic`: `1/(1 + exp(-x))`. -/
noncomputable def logistic (x : ℝ) : ℝ := 1 / (1 + Real.exp (-x))

/-- Model of `probability_of_move(score) = logistic(2.5 * score)`. -/
noncomputable def probability_of_move (score : ℚ) : ℝ :=
  logistic ((2.5 : ℝ) * (score : ℝ))

/-- The record `expected_alpha_and_prob` returns. -/
structure AlphaProb where
  p : ℝ
  expected_sigma : ℚ
  polarity : ℤ

/-- Model of `expected_alpha_and_prob`. -/
noncomputable def expected_alpha_and_prob {ε : Type} (g : DynamicCausalGraph ε)
    (T : String) : AlphaProb :=
  { p := probability_of_move (aggregate_edge_signals g T).1,
    expected_sigma := (aggregate_edge_signals g T).1,
    polarity := (aggregate_edge_signals g T).2 }

/-- `AlertThresholds` (alerts.py). -/
structure AlertThresholds where
  k_sigma : ℝ
  min_p : ℝ

/-- One alert payload as written to the jsonl sink. -/
structure Alert where
  ts : ℚ
  ticker : String
  horizon_min : ℤ
  direction : String
  probability : ℝ
  expected_sigma : ℝ
  rationale : String

/-- Python `round(x, nd)` idealised over `ℝ` (round to `nd` decimal
places; Python rounds exact ties to even, `round` here rounds them up —
the claims never sit on a tie). -/
noncomputable def round_to (nd : ℕ) (x : ℝ) : ℝ :=
  (round (x * (10 : ℝ) ^ nd) : ℤ) / (10 : ℝ) ^ nd

/-- Model of `AlertEngine.maybe_alert`: when both thresholds are met,
build the payload (direction UP iff polarity is positive), append it to
the jsonl sink and return it; otherwise return `None` and leave the sink
unchanged. -/
noncomputable def alert_payload (ticker : String) (horizon_min : ℤ) (p : ℝ)
    (expected_sigma : ℝ) (polarity : ℤ) (rationale : String) (now : ℚ) : Alert :=
  { ts := now, ticker := ticker, horizon_min := horizon_min,
    direction := if 0 < polarity then "UP" else "DOWN",
    probability := round_to 4 p, expected_sigma := round_to 3 expected_sigma,
    rationale := rationale }

noncomputable def maybe_alert (sink : List Alert) (ticker : String)
    (horizon_min : ℤ) (p : ℝ) (expected_sigma : ℝ) (polarity : ℤ)
    (rationale : String) (th : AlertThresholds) (now : ℚ) :
    Option Alert × List Alert :=
  if th.min_p ≤ p ∧ th.k_sigma ≤ expected_sigma then
    (some (alert_payload ticker horizon_min p expected_sigma polarity rationale now),
      sink ++ [alert_payload ticker horizon_min p expected_sigma polarity rationale now])
  else (none, sink)

/-- The alert stage of `Orchestrator.insert_event` (its step 7): aggregate
the signal for the inserted event's ticker and call `maybe_alert` with the
resulting probability, sigma and polarity. -/
noncomputable def alert_step {ε : Type} (g : DynamicCausalGraph ε) (T : String)
    (horizon_min : ℤ) (th : AlertThresholds) (sink : List Alert) (now : ℚ)
    (rationale : String) : Option Alert × List Alert :=
  maybe_alert sink T horizon_min (expected_alpha_and_prob g T).p
    ((expected_alpha_and_prob g T).expected_sigma : ℝ)
    (expected_alpha_and_prob g T).polarity rationale th now

/-- C8: the aggregate signal equals the positive-polarity weight sum minus
the negative-polarity weight sum over edges into nodes carrying the
ticker; the probability equals `1/(1 + e^(−2.5·|signal|))`; an alert is
emitted and appended to the sink iff `probability ≥ min_p` and
`|signal| ≥ k_sigma`, its direction is UP exactly when the signal is
nonnegative; and when the thresholds are not met nothing is returned or
appended. -/
theorem C8_signal_and_alert (ε : Type) (g : DynamicCausalGraph ε) (T : String)
    (horizon_min : ℤ) (th : AlertThresholds) (sink : List Alert) (now : ℚ)
    (rationale : String) :
    (aggregate_edge_signals g T
        = (|spec_net g T|, if 0 ≤ spec_net g T then 1 else -1))
    ∧ ((expected_alpha_and_prob g T).p
        = 1 / (1 + Real.exp (-((2.5 : ℝ) * |((spec_net g T : ℚ) : ℝ)|)))
      ∧ (expected_alpha_and_prob g T).expected_sigma = |spec_net g T|)
    ∧ (((alert_step g T horizon_min th sink now rationale).1.isSome
          ↔ th.min_p ≤ (expected_alpha_and_prob g T).p
            ∧ th.k_sigma ≤ ((|spec_net g T| : ℚ) : ℝ))
      ∧ (∀ a, (alert_step g T horizon_min th sink now rationale).1 = some a →
          a.direction = (if 0 ≤ spec_net g T then "UP" else "DOWN")
          ∧ (alert_step g T horizon_min th sink now rationale).2 = sink ++ [a])
      ∧ ((alert_step g T horizon_min th sink now rationale).1 = none →
          (alert_step g T horizon_min th sink now rationale).2 = sink)) := by
  have hagg := aggregate_eq_spec g T
  have hsig : (expected_alpha_and_prob g T).expected_sigma = |spec_net g T| := by
    simp [expected_alpha_and_prob, hagg]
  have hpol : (expected_alpha_and_prob g T).polarity
      = (if 0 ≤ spec_net g T then 1 else -1) := by
    simp [expected_alpha_and_prob, hagg]
  have hp : (expected_alpha_and_prob g T).p
      = 1 / (1 + Real.exp (-((2.5 : ℝ) * |((spec_net g T : ℚ) : ℝ)|))) := by
    simp only [expected_alpha_and_prob, hagg, probability_of_move, logistic]
    push_cast
    ring_nf
  have hA : alert_step g T horizon_min th sink now rationale
      = if th.min_p ≤ (expected_alpha_and_prob g T).p
            ∧ th.k_sigma ≤ ((|spec_net g T| : ℚ) : ℝ) then
          (some (alert_payload T horizon_min (expected_alpha_and_prob g T).p
              ((|spec_net g T| : ℚ) : ℝ) (expected_alpha_and_prob g T).polarity
              rationale now),
            sink ++ [alert_payload T horizon_min (expected_alpha_and_prob g T).p
              ((|spec_net g T| : ℚ) : ℝ) (expected_alpha_and_prob g T).polarity
              rationale now])
        else (none, sink) := by
    rw [alert_step, maybe_alert, hsig]
  refine ⟨hagg, ⟨hp, hsig⟩, ?_, ?_, ?_⟩
  · rw [hA]
    by_cases hcond : th.min_p ≤ (expected_alpha_and_prob g T).p
        ∧ th.k_sigma ≤ ((|spec_net g T| : ℚ) : ℝ)
    · rw [if_pos hcond]
      simpa using hcond
    · rw [if_neg hcond]
      simpa using hcond
  · intro a ha
    rw [hA] at ha
    by_cases hcond : th.min_p ≤ (expected_alpha_and_prob g T).p
        ∧ th.k_sigma ≤ ((|spec_net g T| : ℚ) : ℝ)
    · rw [if_pos hcond] at ha
      have ha' : a = alert_payload T horizon_min (expected_alpha_and_prob g T).p
          ((|spec_net g T| : ℚ) : ℝ) (expected_alpha_and_prob g T).polarity
          rationale now := by
        have := ha
        simpa using this.symm
      constructor
      · rw [ha']
        rw [alert_payload]
        rw [hpol]
        by_cases hs : 0 ≤ spec_net g T
        · simp [hs]
        · simp [hs]
      · rw [hA, if_pos hcond, ha']
    · rw [if_neg hcond] at ha
      exact absurd ha (by simp)
  · intro ha
    rw [hA] at ha ⊢
    by_cases hcond : th.min_p ≤ (expected_alpha_and_prob g T).p
        ∧ th.k_sigma ≤ ((|spec_net g T| : ℚ) : ℝ)
    · rw [if_pos hcond] at ha
      exact absurd ha (by simp)
    · rw [if_neg hcond]

/-! ### Python values

Dynamic Python values as the llm.py and rebuild_from_log.py code
manipulates them: JSON-decodable data plus dict operations that raise on
non-dicts (`Except Unit` models an uncaught Python exception). -/

inductive PyVal where
  | dict (fields : List (String × PyVal))
  | str (s : String)
  | num (q : ℚ)
  | bool (b : Bool)
  | list (xs : List PyVal)
  | none

mutual

def pyBeq : PyVal → PyVal → Bool
  | .dict a, .dict b => pyBeqFields a b
  | .str a, .str b => a == b
  | .num a, .num b => a == b
  | .bool a, .bool b => a == b
  | .list a, .list b => pyBeqList a b
  | .none, .none => true
  | _, _ => false

def pyBeqFields : List (String × PyVal) → List (String × PyVal) → Bool
  | [], [] => true
  | (k, v) :: t, (k2, v2) :: t2 => k == k2 && pyBeq v v2 && pyBeqFields t t2
  | _, _ => false

def pyBeqList : List PyVal → List PyVal → Bool
  | [], [] => true
  | v :: t, v2 :: t2 => pyBeq v v2 && pyBeqList t t2
  | _, _ => false

end

/-- Python truthiness of a value. -/
def pyTruthy : PyVal → Bool
  | .dict d => !d.isEmpty
  | .str s => decide (s ≠ "")
  | .num q => decide (q ≠ 0)
  | .bool b => b
  | .list xs => !xs.isEmpty
  | .none => false

/-- Association-list lookup keyed by `pyBeq` (Python dict lookup). -/
def alookupBy {ν : Type} (beq : PyVal → PyVal → Bool) (k : PyVal) :
    List (PyVal × ν) → Option ν
  | [] => Option.none
  | (a, b) :: t => if beq a k then some b else alookupBy beq k t

/-- Dict assignment keyed by `pyBeq`. -/
def aupsertBy {ν : Type} (beq : PyVal → PyVal → Bool) (k : PyVal) (v : ν) :
    List (PyVal × ν) → List (PyVal × ν)
  | [] => [(k, v)]
  | (a, b) :: t => if beq a k then (k, v) :: t else (a, b) :: aupsertBy beq k v t

/-- Dict deletion (`d.pop(k, None)`) keyed by `pyBeq`. -/
def aeraseBy {ν : Type} (beq : PyVal → PyVal → Bool) (k : PyVal) :
    List (PyVal × ν) → List (PyVal × ν)
  | [] => []
  | (a, b) :: t => if beq a k then aeraseBy beq k t else (a, b) :: aeraseBy beq k t

/-- `v.get(k, dflt)`: raises (`AttributeError`) when `v` is not a dict. -/
def pyGet (v : PyVal) (k : String) (dflt : PyVal) : Except Unit PyVal :=
  match v with
  | .dict d => .ok ((alookup k d).getD dflt)
  | _ => .error ()

/-- `v.get(k1) or v.get(k2)` (Python `or` picks the second operand when the
first is falsy). -/
def pyGetOr (v : PyVal) (k1 k2 : String) : Except Unit PyVal := do
  let a ← pyGet v k1 .none
  let b ← pyGet v k2 .none
  .ok (if pyTruthy a then a else b)

/-- `v[k] = x`: raises (`TypeError`) when `v` is not a dict. -/
def pySetItem (v : PyVal) (k : String) (x : PyVal) : Except Unit PyVal :=
  match v with
  | .dict d => .ok (.dict (aupsert k x d))
  | _ => .error ()

/-- `v.setdefault(k, x)`: raises when `v` is not a dict. -/
def pySetDefault (v : PyVal) (k : String) (x : PyVal) : Except Unit PyVal :=
  match v with
  | .dict d => .ok (.dict (match alookup k d with
      | some _ => d
      | Option.none => d ++ [(k, x)]))
  | _ => .error ()

/-- `k in v` on a dict; raises on values whose Python `in` would raise
(`int` etc.). Python's `in` on a string or list value behaves differently
(substring / element test), but in `norm_node` those cases still lead to
the same observable outcome — the record's processing raises before any
state change — because `n.get("id")` then raises in `main`; our model
raises at this membership test instead. -/
def pyContains (v : PyVal) (k : String) : Except Unit Bool :=
  match v with
  | .dict d => .ok ((alookup k d).isSome)
  | _ => .error ()

/-- `v[k]` on a dict (KeyError as an exception). -/
def pyIndex (v : PyVal) (k : String) : Except Unit PyVal :=
  match v with
  | .dict d => match alookup k d with
      | some x => .ok x
      | Option.none => .error ()
  | _ => .error ()

/-! ### The consensus debate (src/dyn_causal/llm.py)

`complete` (the external text-generation call, assumed to succeed — the
claim's premise) and `loads` (`json.loads`, `none` modelling a raised
decode error) are oracle parameters; prompt construction is abstracted to
a structured value carrying exactly the data the f-strings interpolate. -/

inductive Prompt where
  | expert (role : String) (summary_cause summary_effect : String) (metadata : PyVal)
  | judge (expert_jsons : List PyVal) (summary_cause summary_effect : String)

/-- The fixed ordered expert roles of llm.py. -/
def EXPERT_ROLES : List (String × String) :=
  [("temporal", "Expert in temporal precedence and lag reasonableness in financial events."),
   ("discourse", "Expert in entity/discourse linking for financial text."),
   ("precondition", "Expert in financial preconditions and enabling constraints."),
   ("commonsense", "Expert in pragmatic market-specific causal logic.")]

/-- The neutral expert fallback for a raised `json.loads`. -/
def expert_fallback : PyVal :=
  .dict [("vote", .num 0), ("polarity", .num 0), ("confidence", .num 0),
         ("rationale", .str "parse_error")]

/-- The judge fallback for a raised `json.loads`. -/
def judge_fallback : PyVal :=
  .dict [("edge", .num 0), ("polarity", .num 0), ("confidence", .num 0),
         ("rationale", .str "parse_error")]

/-- One expert round: for each role, complete the prompt, decode (falling
back to the neutral record only when `json.loads` raises), then run
`j["role"] = name` — which raises when the decoded value is not a dict. -/
def run_expert_round (complete : Prompt → String) (loads : String → Option PyVal)
    (summary_cause summary_effect : String) (metadata : PyVal) :
    List (String × String) → Except Unit (List PyVal)
  | [] => .ok []
  | (name, role) :: rest => do
      let resp := complete (.expert role summary_cause summary_effect metadata)
      let j := (loads resp).getD expert_fallback
      let j2 ← pySetItem j "role" (.str name)
      let tail ← run_expert_round complete loads summary_cause summary_effect metadata rest
      .ok (j2 :: tail)

/-- The round loop: each round recomputes `expert_outputs`; only the last
round's outputs are retained (zero rounds leave the initial `[]`). -/
def run_rounds (complete : Prompt → String) (loads : String → Option PyVal)
    (summary_cause summary_effect : String) (metadata : PyVal) :
    ℕ → Except Unit (List PyVal)
  | 0 => .ok []
  | n + 1 => do
      let _ ← run_rounds complete loads summary_cause summary_effect metadata n
      run_expert_round complete loads summary_cause summary_effect metadata EXPERT_ROLES

/-- Python `rounds or self.max_rounds`: `None` and `0` are falsy. -/
def rounds_arg (rounds : Option ℕ) (max_rounds : ℕ) : ℕ :=
  match rounds with
  | Option.none => max_rounds
  | some 0 => max_rounds
  | some (r + 1) => r + 1

structure DebateResult where
  experts : List PyVal
  judge : PyVal

/-- Model of `DebateOrchestrator.run_debate`. The judge response is decoded
with the same fallback-on-raise; a judge value that decodes to a non-dict
is returned as-is. -/
def run_debate (complete : Prompt → String) (loads : String → Option PyVal)
    (max_rounds : ℕ) (summary_cause summary_effect : String) (metadata : PyVal)
    (rounds : Option ℕ) : Except Unit DebateResult := do
  let expert_outputs ← run_rounds complete loads summary_cause summary_effect
    metadata (rounds_arg rounds max_rounds)
  let jresp := complete (.judge expert_outputs summary_cause summary_effect)
  let judge := (loads jresp).getD judge_fallback
  .ok { experts := expert_outputs, judge := judge }

/-- C2 (the code bug): a model text of `"3"` is valid JSON — `json.loads`
succeeds with the integer 3, so the neutral fallback is not applied — and
the subsequent `j["role"] = name` raises `TypeError`, which nothing
catches: `run_debate` raises on malformed (non-object) model text instead
of degrading to the fallback. -/
theorem C2_run_debate_raises_on_nondict :
    run_debate (fun _ => "3")
      (fun s => if s = "3" then some (.num 3) else Option.none)
      1 "cause summary" "effect summary" (.dict []) Option.none
      = .error () := by
  rfl

/-! ### Log replay (src/rebuild_from_log.py)

The raw replay loop over log rows. `jsonLoads` and `astLiteral` are the
external decoders (`none` models a raised exception); a record carries the
raw timestamp text, its parsed instant `dt` (the value of
`parse_ts(ts) or now`), the action tag (already `.strip()`ed) and the raw
payload text. -/

structure ReplayRecord where
  ts : String
  dt : ℚ
  action : String
  payload : String

def EDGE_ACTIONS : List String :=
  ["add_edge", "edge_add", "update_edge", "add_or_update_edge", "upsert_edge"]

def NODE_ADD_ACTIONS : List String := ["add_node", "node_add", "update_node"]

def NODE_PRUNE_ACTIONS : List String := ["prune_node", "node_prune", "remove_node"]

def EDGE_PRUNE_ACTIONS : List String := ["prune_edge", "edge_prune", "remove_edge"]

/-- Model of `parse_payload`: empty text gives `{}`; JSON decode success
returns whatever value decoded (dict or not!); otherwise a Python literal
that is a dict is accepted and anything else (including a decode failure)
falls back to `{}`. Total — this function itself never raises. -/
def parse_payload (jsonLoads astLiteral : String → Option PyVal) (raw : String) :
    PyVal :=
  if raw = "" then .dict []
  else
    match jsonLoads raw with
    | some v => v
    | Option.none =>
        match astLiteral raw with
        | some (.dict d) => .dict d
        | some _ => .dict []
        | Option.none => .dict []

def isEmptyDict : PyVal → Bool
  | .dict d => d.isEmpty
  | _ => false

/-- Model of `norm_node`: unwrap an optional `node` key (a `.get` that
raises on a non-dict payload — the abort the C9 bug exercises), then copy
the outer `id` down when the inner record lacks one. -/
def norm_node (payload : PyVal) : Except Unit PyVal := do
  let n ← pyGet payload "node" payload
  let hasIdN ← pyContains n "id"
  if hasIdN then .ok n
  else do
    let hasIdP ← pyContains payload "id"
    if hasIdP then do
      let idv ← pyIndex payload "id"
      pySetItem n "id" idv
    else .ok n

/-- The pair-key `f"{src}->{dst}"`. The log writers only ever produce
string ids; Python's `str()` of another value is not modelled. -/
def pyIdOf : PyVal → PyVal → PyVal
  | .str a, .str b => .str (a ++ "->" ++ b)
  | _, _ => .str "<non-str-id>"

/-- Model of `norm_edge`: unwrap an optional `edge` key, require truthy
src/dst (else `None`), then build the normalised edge record with id
defaulting to the pair-key, weight defaulting through `w` then `0.0`,
polarity defaulting to `0`, `ts` falling back from the edge record to the
payload, and the passthrough extras. -/
def norm_edge (payload : PyVal) : Except Unit (Option PyVal) := do
  let e ← pyGet payload "edge" payload
  let src ← pyGetOr e "src" "source"
  let dst ← pyGetOr e "dst" "target"
  if pyTruthy src && pyTruthy dst then do
    let idv ← pyGet e "id" .none
    let wdef ← pyGet e "w" (.num 0)
    let w ← pyGet e "weight" wdef
    let pol ← pyGet e "polarity" (.num 0)
    let tse ← pyGet e "ts" .none
    let tsp ← pyGet payload "ts" .none
    let base : List (String × PyVal) :=
      [("id", if pyTruthy idv then idv else pyIdOf src dst),
       ("src", src), ("dst", dst), ("weight", w), ("polarity", pol),
       ("ts", if pyTruthy tse then tse else tsp)]
    let extras ← ["type", "rationale", "experts", "judge"].foldlM
      (fun (acc : List (String × PyVal)) k => do
        let inE ← pyContains e k
        if inE then do
          let v ← pyIndex e k
          pure (acc ++ [(k, v)])
        else do
          let inP ← pyContains payload k
          if inP then do
            let v ← pyIndex payload k
            pure (acc ++ [(k, v)])
          else pure acc) []
    .ok (some (.dict (base ++ extras)))
  else .ok Option.none

/-- The replay state: the node and edge dicts (keyed by arbitrary Python
values, as the script's dicts are) and the counters of `stats`. -/
structure ReplayState where
  nodes : List (PyVal × PyVal)
  edges : List (PyVal × PyVal)
  rows : ℕ
  applied : ℕ
  skipped_parse : ℕ
  skipped_filter : ℕ
  node_add : ℕ
  node_prune : ℕ
  edge_add : ℕ
  edge_prune : ℕ

def initReplayState : ReplayState := ⟨[], [], 0, 0, 0, 0, 0, 0, 0, 0⟩

/-- The action dispatch of `main`'s loop body, after the since/until,
action-filter and unparsable-payload guards. -/
def replay_apply (ignore_prunes : Bool) (ts : String) (action : String)
    (payload : PyVal) (st : ReplayState) : Except Unit ReplayState :=
  if action ∈ NODE_ADD_ACTIONS then do
    let n ← norm_node payload
    let nid ← pyGet n "id" .none
    if pyTruthy nid then do
      let n2 ← pySetDefault n "ts" (.str ts)
      .ok { st with nodes := aupsertBy pyBeq nid n2 st.nodes,
                    applied := st.applied + 1, node_add := st.node_add + 1 }
    else .ok st
  else if action ∈ EDGE_ACTIONS then do
    let eo ← norm_edge payload
    match eo with
    | some e => do
        let eid ← pyIndex e "id"
        .ok { st with edges := aupsertBy pyBeq eid e st.edges,
                      applied := st.applied + 1, edge_add := st.edge_add + 1 }
    | Option.none => .ok st
  else if ignore_prunes then .ok st
  else if action ∈ NODE_PRUNE_ACTIONS then do
    let nid ← pyGetOr payload "id" "node_id"
    if pyTruthy nid then
      .ok { st with nodes := aeraseBy pyBeq nid st.nodes,
                    applied := st.applied + 1, node_prune := st.node_prune + 1 }
    else .ok st
  else if action ∈ EDGE_PRUNE_ACTIONS then do
    let key ← pyGet payload "id" .none
    if pyTruthy key && (alookupBy pyBeq key st.edges).isSome then
      .ok { st with edges := aeraseBy pyBeq key st.edges,
                    applied := st.applied + 1, edge_prune := st.edge_prune + 1 }
    else do
      let src ← pyGetOr payload "src" "source"
      let dst ← pyGetOr payload "dst" "target"
      if pyTruthy src && pyTruthy dst then
        .ok { st with edges := aeraseBy pyBeq (pyIdOf src dst) st.edges,
                      applied := st.applied + 1, edge_prune := st.edge_prune + 1 }
      else .ok st
  else .ok st

/-- Model of `main`'s replay loop: count the row; apply the `since` skip
and the `until` break; apply the action allow-list; parse the payload,
counting and skipping a record whose payload fell back to `{}` while its
raw text was non-empty; then dispatch on the action and continue. An
`Except.error` is an uncaught Python exception aborting the whole replay. -/
def replay_loop (jsonLoads astLiteral : String → Option PyVal)
    (since_b until_b : Option ℚ) (only : Option (List String))
    (ignore_prunes : Bool) : List ReplayRecord → ReplayState →
    Except Unit ReplayState
  | [], st => .ok st
  | r :: rest, st =>
      let st := { st with rows := st.rows + 1 }
      if (match since_b with | some s => decide (r.dt < s) | Option.none => false) then
        replay_loop jsonLoads astLiteral since_b until_b only ignore_prunes rest st
      else if (match until_b with | some u => decide (u ≤ r.dt) | Option.none => false) then
        .ok st
      else if (match only with
               | some os => decide (r.action ∉ os)
               | Option.none => false) then
        replay_loop jsonLoads astLiteral since_b until_b only ignore_prunes rest
          { st with skipped_filter := st.skipped_filter + 1 }
      else
        let payload := parse_payload jsonLoads astLiteral r.payload
        if isEmptyDict payload && decide (r.payload ≠ "") then
          replay_loop jsonLoads astLiteral since_b until_b only ignore_prunes rest
            { st with skipped_parse := st.skipped_parse + 1 }
        else
          match replay_apply ignore_prunes r.ts r.action payload st with
          | .ok st2 =>
              replay_loop jsonLoads astLiteral since_b until_b only ignore_prunes rest st2
          | .error e => .error e

/-- C9 (the code bug): a record whose payload text is `"3"` — valid JSON
that decodes to a non-dict — passes the `payload == {}` guard uncounted,
reaches `norm_node`, and `payload.get("node", payload)` raises
`AttributeError`, aborting the whole replay instead of counting and
skipping the record. -/
theorem C9_replay_aborts_on_nondict_payload :
    replay_loop (fun s => if s = "3" then some (.num 3) else Option.none)
      (fun _ => Option.none) Option.none Option.none Option.none false
      [{ ts := "2024-01-01T00:00:00+00:00", dt := 0, action := "add_node",
         payload := "3" }]
      initReplayState
      = .error () := by
  rfl

/-- C9 (the intended behaviour on genuinely unparsable payloads, which
does hold): a record whose payload decodes neither as JSON nor as a
Python-literal dict is counted in `skipped_parse` and skipped — the graph
state is untouched — and the loop goes on to process the remaining
records from that same state. -/
theorem C9_unparsable_record_skipped
    (jsonLoads astLiteral : String → Option PyVal)
    (ignore_prunes : Bool)
    (r : ReplayRecord) (rest : List ReplayRecord) (st : ReplayState)
    (hjson : jsonLoads r.payload = Option.none)
    (hast : ∀ d, astLiteral r.payload ≠ some (.dict d))
    (hraw : r.payload ≠ "") :
    replay_loop jsonLoads astLiteral Option.none Option.none Option.none
        ignore_prunes (r :: rest) st
      = replay_loop jsonLoads astLiteral Option.none Option.none Option.none
          ignore_prunes rest
          { st with rows := st.rows + 1, skipped_parse := st.skipped_parse + 1 } := by
  have hparse : parse_payload jsonLoads astLiteral r.payload = .dict [] := by
    rw [parse_payload, if_neg hraw, hjson]
    cases hcase : astLiteral r.payload with
    | none => rfl
    | some v =>
        cases v with
        | dict d => exact absurd hcase (hast d)
        | str s => rfl
        | num q => rfl
        | bool b => rfl
        | list xs => rfl
        | none => rfl
  have hskip : (isEmptyDict (parse_payload jsonLoads astLiteral r.payload)
      && decide (r.payload ≠ "")) = true := by
    rw [hparse]
    simpa [isEmptyDict] using hraw
  simp only [replay_loop]
  rw [if_neg (by simp)]
  rw [if_neg (by simp)]
  rw [if_neg (by simp)]
  rw [if_pos hskip]

/-- C9 witness: the skip theorem applied at a concrete unparsable record
(payload `"not json"` rejected by both decoders): one record in, counted
once, state otherwise untouched. -/
theorem C9_unparsable_record_skipped_witness :
    replay_loop (fun _ => Option.none) (fun _ => Option.none)
        Option.none Option.none Option.none false
        [{ ts := "t", dt := 0, action := "add_node", payload := "not json" }]
        initReplayState
      = replay_loop (fun _ => Option.none) (fun _ => Option.none)
          Option.none Option.none Option.none false []
          { initReplayState with rows := 1, skipped_parse := 1 } :=
  C9_unparsable_record_skipped (fun _ => Option.none) (fun _ => Option.none)
    false
    { ts := "t", dt := 0, action := "add_node", payload := "not json" } []
    initReplayState rfl (fun _ => by simp) (by decide)

/-! ### Replay vs the live graph (claim C1)

The replay loop above, specialised to the well-formed log records that the
pairing in claim C1 considers: each action is applied to the live
`DynamicCausalGraph` and appended to the log, and the log is replayed with
no time bounds, no action filter and prunes applied. A `LogAction` carries
exactly the payload data the writers emit (`add_node` with `ev.to_node()`,
`add_or_update_edge` with src/dst/weight/polarity, a node prune with the
node id); on such payloads the raw loop's `norm_node` / `norm_edge`
normalisations reduce to the operations below (edge id `"src->dst"`,
truthiness guards on the id fields). Evidence and wall-clock timestamps on
the live side are irrelevant to the claim's comparison and fixed to `()`
and `0`. -/

inductive LogAction where
  | add_node (n : NodeData)
  | add_edge (src dst : String) (weight : ℚ) (polarity : ℤ)
  | prune_node (id : String)
deriving DecidableEq

/-- Applying one logged action to the live graph: `add_event_node` (whose
payload is exactly the stored node dict), `add_or_update_edge`,
`remove_node`. -/
def apply_live (g : DynamicCausalGraph Unit) : LogAction → DynamicCausalGraph Unit
  | .add_node n => { g with nodes := aupsert n.id (some n) g.nodes }
  | .add_edge s d w p => add_or_update_edge g s d w p () 0
  | .prune_node i => remove_node g i

/-- The replayed edge record (the fields of `norm_edge`'s output the claim
compares, keyed by the id string). -/
structure REdge where
  src : String
  dst : String
  weight : ℚ
  polarity : ℤ
deriving DecidableEq, Repr

/-- The replay accumulator: `nodes` and `edges` dicts. -/
structure RGraph where
  nodes : List (String × NodeData)
  edges : List (String × REdge)
deriving DecidableEq

def edge_id (s d : String) : String := s ++ "->" ++ d

/-- Applying one logged action on the replay side: node upsert by id
(skipped for a falsy id, as `if nid:` does), edge upsert keyed by
`"src->dst"` — crucially overwriting, not blending — skipped when either
endpoint id is falsy (as `norm_edge` returns `None` then), and node prune
by id, which — unlike the live `remove_node` — does not touch the edge
dict. -/
def apply_replay (r : RGraph) : LogAction → RGraph
  | .add_node n =>
      if n.id = "" then r else { r with nodes := aupsert n.id n r.nodes }
  | .add_edge s d w p =>
      if s = "" ∨ d = "" then r
      else { r with edges := aupsert (edge_id s d) ⟨s, d, w, p⟩ r.edges }
  | .prune_node i =>
      if i = "" then r else { r with nodes := aerase i r.nodes }

/-- The side conditions of the amended claim, checked along the sequence:
`ns` is the current live node-id set and `ps` the ordered pairs already
edge-added. Every added node id is truthy; every edge-add names two
already-present distinct-from-empty endpoints, a pair never added before,
and an id string distinct from every earlier pair's; every node prune has
a truthy id and touches no endpoint of any edge-added pair. -/
def good_acts : List LogAction → List String → List (String × String) → Bool
  | [], _, _ => true
  | .add_node n :: rest, ns, ps =>
      decide (n.id ≠ "") && good_acts rest (n.id :: ns) ps
  | .add_edge s d _ _ :: rest, ns, ps =>
      decide (s ∈ ns) && decide (d ∈ ns) && decide (s ≠ "") && decide (d ≠ "")
        && decide ((s, d) ∉ ps)
        && decide (∀ q ∈ ps, edge_id q.1 q.2 ≠ edge_id s d)
        && good_acts rest ns ((s, d) :: ps)
  | .prune_node i :: rest, ns, ps =>
      decide (i ≠ "") && decide (∀ q ∈ ps, q.1 ≠ i ∧ q.2 ≠ i)
        && good_acts rest (ns.filter (fun x => decide (x ≠ i))) ps

/-- The simulation invariant between the live graph and the replay state:
nodes agree pointwise; `ns` characterises the stored node ids; live and
replayed edges agree through the `"src->dst"` keying, with weight and
polarity equal; and every stored edge's pair is among the already-added
pairs `ps`. -/
structure SimInv (g : DynamicCausalGraph Unit) (r : RGraph)
    (ns : List String) (ps : List (String × String)) : Prop where
  nodes_eq : ∀ i, alookup i g.nodes = (alookup i r.nodes).map some
  ns_char : ∀ i, i ∈ ns ↔ (alookup i r.nodes).isSome
  live_to_replay : ∀ s d e, alookup (s, d) g.edges = some e →
      alookup (edge_id s d) r.edges = some ⟨s, d, e.weight, e.polarity⟩
  replay_to_live : ∀ k re, alookup k r.edges = some re →
      k = edge_id re.src re.dst
      ∧ ∃ e, alookup (re.src, re.dst) g.edges = some e
          ∧ e.weight = re.weight ∧ e.polarity = re.polarity
  live_dom : ∀ s d, (alookup (s, d) g.edges).isSome = true → (s, d) ∈ ps
  replay_dom : ∀ k re, alookup k r.edges = some re → (re.src, re.dst) ∈ ps

theorem alookup_isSome_of_mem {κ ν : Type} [DecidableEq κ] (k : κ) (v : ν)
    (l : List (κ × ν)) (h : (k, v) ∈ l) : (alookup k l).isSome = true := by
  induction l with
  | nil => simp at h
  | cons hd t ih =>
    obtain ⟨a, b⟩ := hd
    rcases List.mem_cons.mp h with h1 | h1
    · obtain ⟨rfl, rfl⟩ := Prod.mk.injEq .. ▸ h1
      simp [alookup]
    · by_cases hq : a = k
      · simp [alookup, hq]
      · simpa [alookup, hq] using ih h1

theorem sim_inv_empty : SimInv (emptyGraph Unit) ⟨[], []⟩ [] [] := by
  refine ⟨?_, ?_, ?_, ?_, ?_, ?_⟩ <;> intro i <;> simp [emptyGraph, alookup]

theorem sim_step_add_node (g : DynamicCausalGraph Unit) (r : RGraph)
    (ns : List String) (ps : List (String × String)) (n : NodeData)
    (hinv : SimInv g r ns ps) (hne : n.id ≠ "") :
    SimInv (apply_live g (.add_node n)) (apply_replay r (.add_node n))
      (n.id :: ns) ps := by
  have hln : (apply_live g (.add_node n)).nodes = aupsert n.id (some n) g.nodes := rfl
  have hle : (apply_live g (.add_node n)).edges = g.edges := rfl
  have hrep : apply_replay r (.add_node n)
      = { r with nodes := aupsert n.id n r.nodes } := by
    simp [apply_replay, hne]
  have hrn : (apply_replay r (.add_node n)).nodes = aupsert n.id n r.nodes := by
    rw [hrep]
  have hre : (apply_replay r (.add_node n)).edges = r.edges := by
    rw [hrep]
  refine ⟨?_, ?_, ?_, ?_, ?_, ?_⟩
  · intro i
    rw [hln, hrn, alookup_aupsert, alookup_aupsert]
    by_cases h : n.id = i
    · simp [h]
    · simp [h, hinv.nodes_eq i]
  · intro i
    rw [hrn, alookup_aupsert]
    by_cases h : n.id = i
    · simp [h]
    · have hni : ¬ i = n.id := fun hh => h hh.symm
      simp [h, hni, List.mem_cons, hinv.ns_char i]
  · intro s2 d2 e he
    rw [hle] at he
    rw [hre]
    exact hinv.live_to_replay s2 d2 e he
  · intro k re hk
    rw [hre] at hk
    rw [hle]
    exact hinv.replay_to_live k re hk
  · intro s2 d2 hsome
    rw [hle] at hsome
    exact hinv.live_dom s2 d2 hsome
  · intro k re hk
    rw [hre] at hk
    exact hinv.replay_dom k re hk

theorem sim_step_add_edge (g : DynamicCausalGraph Unit) (r : RGraph)
    (ns : List String) (ps : List (String × String)) (s d : String) (w : ℚ)
    (p : ℤ) (hinv : SimInv g r ns ps)
    (hs : s ∈ ns) (hd : d ∈ ns) (hs0 : s ≠ "") (hd0 : d ≠ "")
    (hfresh : (s, d) ∉ ps)
    (hids : ∀ q ∈ ps, edge_id q.1 q.2 ≠ edge_id s d) :
    SimInv (apply_live g (.add_edge s d w p)) (apply_replay r (.add_edge s d w p))
      ns ((s, d) :: ps) := by
  have hnone : alookup (s, d) g.edges = none := by
    cases hcase : alookup (s, d) g.edges with
    | none => rfl
    | some e =>
        exact absurd (hinv.live_dom s d (by simp [hcase])) hfresh
  have hsl : (alookup s g.nodes).isSome = true := by
    have := (hinv.ns_char s).mp hs
    rw [hinv.nodes_eq s]
    simpa using this
  have hens : ensure_node s g.nodes = g.nodes := by
    obtain ⟨v, hv⟩ := Option.isSome_iff_exists.mp hsl
    simp [ensure_node, hv]
  have hdl : (alookup d g.nodes).isSome = true := by
    have := (hinv.ns_char d).mp hd
    rw [hinv.nodes_eq d]
    simpa using this
  have hend : ensure_node d g.nodes = g.nodes := by
    obtain ⟨v, hv⟩ := Option.isSome_iff_exists.mp hdl
    simp [ensure_node, hv]
  have hlive : apply_live g (.add_edge s d w p)
      = { nodes := g.nodes, edges := g.edges
            ++ [((s, d), ⟨w, p, 0, [()]⟩)] } := by
    rw [show apply_live g (.add_edge s d w p)
        = add_or_update_edge g s d w p () 0 from rfl]
    rw [add_or_update_edge, hnone, hens, hend]
  have hln : (apply_live g (.add_edge s d w p)).nodes = g.nodes := by rw [hlive]
  have hle : (apply_live g (.add_edge s d w p)).edges
      = g.edges ++ [((s, d), ⟨w, p, 0, [()]⟩)] := by rw [hlive]
  have hrep : apply_replay r (.add_edge s d w p)
      = { r with edges := aupsert (edge_id s d) ⟨s, d, w, p⟩ r.edges } := by
    simp [apply_replay, hs0, hd0]
  have hrn : (apply_replay r (.add_edge s d w p)).nodes = r.nodes := by rw [hrep]
  have hre : (apply_replay r (.add_edge s d w p)).edges
      = aupsert (edge_id s d) ⟨s, d, w, p⟩ r.edges := by rw [hrep]
  refine ⟨?_, ?_, ?_, ?_, ?_, ?_⟩
  · intro i
    rw [hln, hrn]
    exact hinv.nodes_eq i
  · intro i
    rw [hrn]
    exact hinv.ns_char i
  · intro s2 d2 e he
    rw [hle, alookup_append] at he
    rw [hre, alookup_aupsert]
    cases hcase : alookup (s2, d2) g.edges with
    | some v =>
        rw [hcase] at he
        have hv : v = e := by simpa using he
        subst hv
        have hmem : (s2, d2) ∈ ps := hinv.live_dom s2 d2 (by simp [hcase])
        rw [if_neg (fun h => hids (s2, d2) hmem h.symm)]
        exact hinv.live_to_replay s2 d2 v hcase
    | none =>
        rw [hcase] at he
        by_cases hq : (s, d) = (s2, d2)
        · have hq1 : s = s2 := congrArg Prod.fst hq
          have hq2 : d = d2 := congrArg Prod.snd hq
          subst hq1
          subst hq2
          have he2 : (⟨w, p, 0, [()]⟩ : EdgeData Unit) = e := by
            simpa [alookup] using he
          rw [if_pos rfl, ← he2]
        · exfalso
          have hz : alookup (s2, d2) [((s, d), (⟨w, p, 0, [()]⟩ : EdgeData Unit))]
              = none := by
            simp [alookup, hq]
          rw [hz] at he
          exact Option.noConfusion he
  · intro k re hk
    rw [hre, alookup_aupsert] at hk
    rw [hle]
    by_cases hkk : edge_id s d = k
    · rw [if_pos hkk] at hk
      have hre2 : re = ⟨s, d, w, p⟩ := by simpa using hk.symm
      subst hre2
      refine ⟨hkk.symm, ⟨⟨w, p, 0, [()]⟩, ?_, rfl, rfl⟩⟩
      rw [alookup_append, hnone]
      simp [alookup]
    · rw [if_neg hkk] at hk
      obtain ⟨hk2, e, he, hw, hp2⟩ := hinv.replay_to_live k re hk
      refine ⟨hk2, ⟨e, ?_, hw, hp2⟩⟩
      rw [alookup_append, he]
  · intro s2 d2 hsome
    rw [hle, alookup_append] at hsome
    cases hcase : alookup (s2, d2) g.edges with
    | some v =>
        exact List.mem_cons.mpr (Or.inr (hinv.live_dom s2 d2 (by simp [hcase])))
    | none =>
        rw [hcase] at hsome
        by_cases hq : (s, d) = (s2, d2)
        · exact List.mem_cons.mpr (Or.inl hq.symm)
        · exfalso
          have hz : alookup (s2, d2) [((s, d), (⟨w, p, 0, [()]⟩ : EdgeData Unit))]
              = none := by
            simp [alookup, hq]
          rw [hz] at hsome
          simp at hsome
  · intro k re hk
    rw [hre, alookup_aupsert] at hk
    by_cases hkk : edge_id s d = k
    · rw [if_pos hkk] at hk
      have hre2 : re = ⟨s, d, w, p⟩ := by simpa using hk.symm
      subst hre2
      exact List.mem_cons.mpr (Or.inl rfl)
    · rw [if_neg hkk] at hk
      exact List.mem_cons.mpr (Or.inr (hinv.replay_dom k re hk))

theorem sim_step_prune_node (g : DynamicCausalGraph Unit) (r : RGraph)
    (ns : List String) (ps : List (String × String)) (i : String)
    (hinv : SimInv g r ns ps) (hi0 : i ≠ "")
    (hp : ∀ q ∈ ps, q.1 ≠ i ∧ q.2 ≠ i) :
    SimInv (apply_live g (.prune_node i)) (apply_replay r (.prune_node i))
      (ns.filter (fun x => decide (x ≠ i))) ps := by
  have hrep : apply_replay r (.prune_node i)
      = { r with nodes := aerase i r.nodes } := by
    simp [apply_replay, hi0]
  have hrn : (apply_replay r (.prune_node i)).nodes = aerase i r.nodes := by
    rw [hrep]
  have hre : (apply_replay r (.prune_node i)).edges = r.edges := by
    rw [hrep]
  by_cases hpres : (alookup i g.nodes).isSome = true
  · have hfilter : g.edges.filter
        (fun e => decide (e.1.1 ≠ i) && decide (e.1.2 ≠ i)) = g.edges := by
      rw [List.filter_eq_self]
      intro e he
      have hsome := alookup_isSome_of_mem e.1 e.2 g.edges (by simpa using he)
      have hmem : (e.1.1, e.1.2) ∈ ps := hinv.live_dom e.1.1 e.1.2 (by simpa using hsome)
      obtain ⟨h1, h2⟩ := hp (e.1.1, e.1.2) hmem
      simp [h1, h2]
    have hlive : apply_live g (.prune_node i)
        = { nodes := aerase i g.nodes, edges := g.edges } := by
      rw [show apply_live g (.prune_node i) = remove_node g i from rfl]
      rw [remove_node, if_pos hpres, hfilter]
    have hln : (apply_live g (.prune_node i)).nodes = aerase i g.nodes := by
      rw [hlive]
    have hle : (apply_live g (.prune_node i)).edges = g.edges := by
      rw [hlive]
    refine ⟨?_, ?_, ?_, ?_, ?_, ?_⟩
    · intro j
      rw [hln, hrn, alookup_aerase, alookup_aerase]
      by_cases hij : i = j
      · simp [hij]
      · simp [hij, hinv.nodes_eq j]
    · intro j
      rw [hrn, alookup_aerase, List.mem_filter]
      by_cases hij : i = j
      · simp [hij]
      · have hji : ¬ j = i := fun h => hij h.symm
        simp [hij, hji, hinv.ns_char j]
    · intro s2 d2 e he
      rw [hle] at he
      rw [hre]
      exact hinv.live_to_replay s2 d2 e he
    · intro k re hk
      rw [hre] at hk
      rw [hle]
      exact hinv.replay_to_live k re hk
    · intro s2 d2 hsome
      rw [hle] at hsome
      exact hinv.live_dom s2 d2 hsome
    · intro k re hk
      rw [hre] at hk
      exact hinv.replay_dom k re hk
  · have hlive : apply_live g (.prune_node i) = g := by
      rw [show apply_live g (.prune_node i) = remove_node g i from rfl]
      rw [remove_node, if_neg hpres]
    have hln : (apply_live g (.prune_node i)).nodes = g.nodes := by rw [hlive]
    have hle : (apply_live g (.prune_node i)).edges = g.edges := by rw [hlive]
    have hrnone : alookup i r.nodes = none := by
      have h1 := hinv.nodes_eq i
      cases hcase : alookup i r.nodes with
      | none => rfl
      | some v =>
          rw [hcase] at h1
          exact absurd (by simp [h1]) hpres
    refine ⟨?_, ?_, ?_, ?_, ?_, ?_⟩
    · intro j
      rw [hln, hrn, alookup_aerase]
      by_cases hij : i = j
      · subst hij
        rw [if_pos rfl, hinv.nodes_eq i, hrnone]
      · simp [hij, hinv.nodes_eq j]
    · intro j
      rw [hrn, alookup_aerase, List.mem_filter]
      by_cases hij : i = j
      · simp [hij]
      · have hji : ¬ j = i := fun h => hij h.symm
        simp [hij, hji, hinv.ns_char j]
    · intro s2 d2 e he
      rw [hle] at he
      rw [hre]
      exact hinv.live_to_replay s2 d2 e he
    · intro k re hk
      rw [hre] at hk
      rw [hle]
      exact hinv.replay_to_live k re hk
    · intro s2 d2 hsome
      rw [hle] at hsome
      exact hinv.live_dom s2 d2 hsome
    · intro k re hk
      rw [hre] at hk
      exact hinv.replay_dom k re hk

theorem sim_fold (acts : List LogAction) :
    ∀ (ns : List String) (ps : List (String × String))
      (g : DynamicCausalGraph Unit) (r : RGraph),
      good_acts acts ns ps = true → SimInv g r ns ps →
      ∃ ns2 ps2, SimInv (acts.foldl apply_live g) (acts.foldl apply_replay r)
        ns2 ps2 := by
  induction acts with
  | nil =>
    intro ns ps g r _ hinv
    exact ⟨ns, ps, hinv⟩
  | cons a rest ih =>
    intro ns ps g r hgood hinv
    cases a with
    | add_node n =>
        rw [show good_acts (.add_node n :: rest) ns ps
            = (decide (n.id ≠ "") && good_acts rest (n.id :: ns) ps) from rfl] at hgood
        rw [Bool.and_eq_true] at hgood
        obtain ⟨hne, hrest⟩ := hgood
        exact ih (n.id :: ns) ps _ _ hrest
          (sim_step_add_node g r ns ps n hinv (by simpa using hne))
    | add_edge s d w p =>
        rw [show good_acts (.add_edge s d w p :: rest) ns ps
            = (decide (s ∈ ns) && decide (d ∈ ns) && decide (s ≠ "")
                && decide (d ≠ "") && decide ((s, d) ∉ ps)
                && decide (∀ q ∈ ps, edge_id q.1 q.2 ≠ edge_id s d)
                && good_acts rest ns ((s, d) :: ps)) from rfl] at hgood
        simp only [Bool.and_eq_true, decide_eq_true_eq] at hgood
        obtain ⟨⟨⟨⟨⟨⟨h1, h2⟩, h3⟩, h4⟩, h5⟩, h6⟩, hrest⟩ := hgood
        exact ih ns ((s, d) :: ps) _ _ (by exact hrest)
          (sim_step_add_edge g r ns ps s d w p hinv h1 h2 h3 h4 h5 h6)
    | prune_node i =>
        rw [show good_acts (.prune_node i :: rest) ns ps
            = (decide (i ≠ "") && decide (∀ q ∈ ps, q.1 ≠ i ∧ q.2 ≠ i)
                && good_acts rest (ns.filter (fun x => decide (x ≠ i))) ps)
              from rfl] at hgood
        simp only [Bool.and_eq_true, decide_eq_true_eq] at hgood
        obtain ⟨⟨h1, h2⟩, hrest⟩ := hgood
        exact ih (ns.filter (fun x => decide (x ≠ i))) ps _ _ (by exact hrest)
          (sim_step_prune_node g r ns ps i hinv h1 h2)

/-- C1 counterexample: after add node A, add node B, add edge (A,B) with
weight 1, add edge (A,B) again with weight 0, the replayed edge "A->B"
carries the last logged weight 0 while the live graph blends to
0.5·1 + 0.5·0 = 1/2 — the replayed edge set is not identical to the
snapshot, refuting the claim as stated. -/
theorem C1_counterexample :
    (alookup (edge_id "A" "B")
        (([LogAction.add_node
              { id := "A", type := "news", ticker := Option.none, ts := 0,
                attrs := [], summary := "" },
            LogAction.add_node
              { id := "B", type := "news", ticker := Option.none, ts := 0,
                attrs := [], summary := "" },
            LogAction.add_edge "A" "B" 1 1,
            LogAction.add_edge "A" "B" 0 1].foldl apply_replay
          ⟨[], []⟩).edges)).map REdge.weight
      ≠ (alookup ("A", "B")
        (([LogAction.add_node
              { id := "A", type := "news", ticker := Option.none, ts := 0,
                attrs := [], summary := "" },
            LogAction.add_node
              { id := "B", type := "news", ticker := Option.none, ts := 0,
                attrs := [], summary := "" },
            LogAction.add_edge "A" "B" 1 1,
            LogAction.add_edge "A" "B" 0 1].foldl apply_live
          (emptyGraph Unit)).edges)).map EdgeData.weight := by
  have hrep : (([LogAction.add_node
        { id := "A", type := "news", ticker := Option.none, ts := 0,
          attrs := [], summary := "" },
      LogAction.add_node
        { id := "B", type := "news", ticker := Option.none, ts := 0,
          attrs := [], summary := "" },
      LogAction.add_edge "A" "B" 1 1,
      LogAction.add_edge "A" "B" 0 1].foldl apply_replay
      ⟨[], []⟩ : RGraph).edges)
      = [(edge_id "A" "B", ⟨"A", "B", 0, 1⟩)] := by
    simp [apply_replay, aupsert, edge_id]
  have hlive : (([LogAction.add_node
        { id := "A", type := "news", ticker := Option.none, ts := 0,
          attrs := [], summary := "" },
      LogAction.add_node
        { id := "B", type := "news", ticker := Option.none, ts := 0,
          attrs := [], summary := "" },
      LogAction.add_edge "A" "B" 1 1,
      LogAction.add_edge "A" "B" 0 1].foldl apply_live
      (emptyGraph Unit)).edges)
      = [(("A", "B"),
          ⟨(1/2) * 1 + (1/2) * 0, 1, 0, [(), ()]⟩)] := by
    simp [apply_live, add_or_update_edge, emptyGraph, aupsert, alookup,
      ensure_node]
  rw [hrep, hlive]
  simp [alookup, edge_id]

/-- C1 (amended): for every action sequence in which each node-add carries
a non-empty id, each edge-add names two previously added (and not since
pruned) endpoints, occurs for its ordered (src,dst) pair at most once and
has an id string distinct from every other pair's, and each node prune
has a non-empty id not touching any edge endpoint — replaying the full log
from empty state yields exactly the live snapshot: the node maps agree
pointwise, and the edge sets keyed by "src->dst" agree with identical
weight and polarity per edge, in both directions. (The counterexample
shows the claim fails without the at-most-one-edge-add restriction: the
live graph blends repeated upserts while replay overwrites; node prunes
also drop incident live edges that replay keeps, hence the prune
restriction.) -/
theorem C1_replay_vs_snapshot (acts : List LogAction)
    (hgood : good_acts acts [] [] = true) :
    (∀ i, alookup i ((acts.foldl apply_live (emptyGraph Unit)).nodes)
        = (alookup i ((acts.foldl apply_replay ⟨[], []⟩).nodes)).map some)
    ∧ (∀ s d e, alookup (s, d)
          ((acts.foldl apply_live (emptyGraph Unit)).edges) = some e →
        alookup (edge_id s d) ((acts.foldl apply_replay ⟨[], []⟩).edges)
          = some ⟨s, d, e.weight, e.polarity⟩)
    ∧ (∀ k re, alookup k ((acts.foldl apply_replay ⟨[], []⟩).edges) = some re →
        k = edge_id re.src re.dst
        ∧ ∃ e, alookup (re.src, re.dst)
              ((acts.foldl apply_live (emptyGraph Unit)).edges) = some e
            ∧ e.weight = re.weight ∧ e.polarity = re.polarity) := by
  obtain ⟨ns2, ps2, hinv⟩ :=
    sim_fold acts [] [] (emptyGraph Unit) ⟨[], []⟩ hgood sim_inv_empty
  exact ⟨hinv.nodes_eq, hinv.live_to_replay, hinv.replay_to_live⟩

/-- C1 witness: the amended equivalence applied to the concrete well-formed
sequence add A, add B, add edge (A,B). -/
theorem C1_replay_vs_snapshot_witness :
    (∀ i, alookup i (([LogAction.add_node
          { id := "A", type := "news", ticker := Option.none, ts := 0,
            attrs := [], summary := "" },
        LogAction.add_node
          { id := "B", type := "news", ticker := Option.none, ts := 0,
            attrs := [], summary := "" },
        LogAction.add_edge "A" "B" 1 1].foldl apply_live
        (emptyGraph Unit)).nodes)
        = (alookup i (([LogAction.add_node
            { id := "A", type := "news", ticker := Option.none, ts := 0,
              attrs := [], summary := "" },
          LogAction.add_node
            { id := "B", type := "news", ticker := Option.none, ts := 0,
              attrs := [], summary := "" },
          LogAction.add_edge "A" "B" 1 1].foldl apply_replay
          ⟨[], []⟩).nodes)).map some)
    ∧ (∀ s d e, alookup (s, d) (([LogAction.add_node
          { id := "A", type := "news", ticker := Option.none, ts := 0,
            attrs := [], summary := "" },
        LogAction.add_node
          { id := "B", type := "news", ticker := Option.none, ts := 0,
            attrs := [], summary := "" },
        LogAction.add_edge "A" "B" 1 1].foldl apply_live
        (emptyGraph Unit)).edges) = some e →
        alookup (edge_id s d) (([LogAction.add_node
            { id := "A", type := "news", ticker := Option.none, ts := 0,
              attrs := [], summary := "" },
          LogAction.add_node
            { id := "B", type := "news", ticker := Option.none, ts := 0,
              attrs := [], summary := "" },
          LogAction.add_edge "A" "B" 1 1].foldl apply_replay
          ⟨[], []⟩).edges)
          = some ⟨s, d, e.weight, e.polarity⟩)
    ∧ (∀ k re, alookup k (([LogAction.add_node
          { id := "A", type := "news", ticker := Option.none, ts := 0,
            attrs := [], summary := "" },
        LogAction.add_node
          { id := "B", type := "news", ticker := Option.none, ts := 0,
            attrs := [], summary := "" },
        LogAction.add_edge "A" "B" 1 1].foldl apply_replay
        ⟨[], []⟩).edges) = some re →
        k = edge_id re.src re.dst
        ∧ ∃ e, alookup (re.src, re.dst) (([LogAction.add_node
              { id := "A", type := "news", ticker := Option.none, ts := 0,
                attrs := [], summary := "" },
            LogAction.add_node
              { id := "B", type := "news", ticker := Option.none, ts := 0,
                attrs := [], summary := "" },
            LogAction.add_edge "A" "B" 1 1].foldl apply_live
            (emptyGraph Unit)).edges) = some e
            ∧ e.weight = re.weight ∧ e.polarity = re.polarity) :=
  C1_replay_vs_snapshot
    [LogAction.add_node
        { id := "A", type := "news", ticker := Option.none, ts := 0,
          attrs := [], summary := "" },
      LogAction.add_node
        { id := "B", type := "news", ticker := Option.none, ts := 0,
          attrs := [], summary := "" },
      LogAction.add_edge "A" "B" 1 1]
    (by decide)

end DynCausal
